import Mathlib

/-!
# CHIP-8 execution engine (`src/main.c`)

A shallow embedding of the fetch/decode/execute engine of the emulator:
`get_op_code`, `clear_display` and `start_emulator`, over an explicit machine
state.  C arrays are total functions on `Nat` of which only the indices below
the array size belong to the array; an array access whose index the code does
not keep inside the array (it is undefined behaviour in C) makes the step end in
a `Fault`.  Unsigned machine integers are `Nat` with an explicit reduction
modulo `2 ^ w` wherever the C arithmetic can leave the range of the type.
Diagnostics printed on `stderr` are not part of the state.
-/

namespace Chip8

/-! ## Constants and globals of the missing headers -/

/-- Modelled from the spec: `constants.h` is not among the sources; the data
model gives memory as 4096 unsigned 8-bit cells. -/
def MEMORY_SIZE : Nat := 4096

/-- Modelled from the spec: `constants.h` is not among the sources; the call
stack holds up to 16 return addresses. -/
def STACK_SIZE : Nat := 16

/-- Modelled from the spec: `constants.h` is not among the sources; there are
16 keypad latches. -/
def NUM_KEYS : Nat := 16

/-- Modelled from the spec: `constants.h` is not among the sources; the display
is 64 pixels wide. -/
def DISPLAY_WIDTH : Nat := 64

/-- Modelled from the spec: `constants.h` is not among the sources; the display
is 32 pixels high. -/
def DISPLAY_HEIGHT : Nat := 32

/-- Modelled from the spec: the globals declared in `registers.h`, with the
types of the spec's data model.  `memory`, `V`, `delay`, `sound` hold unsigned
8-bit values, `I`, `pc` and the stack entries unsigned 16-bit values, `display`
is indexed `display[x][y]`.  `opcode` holds the 16 bits of the instruction word:
the code only ever masks it with constants below `0x10000`, which gives the
same result whether the global is declared signed or unsigned. -/
structure State where
  memory : Nat → Nat
  V : Nat → Nat
  I : Nat
  pc : Nat
  sp : Nat
  stack : Nat → Nat
  delay : Nat
  sound : Nat
  keypad : Nat → Nat
  display : Nat → Nat → Bool
  opcode : Nat

/-- The ways a step can leave the arrays: the index of an access to `memory`
or to `keypad` that lies outside the array. -/
inductive Fault where
  | memory_index (index : Nat)
  | keypad_index (index : Nat)
  deriving DecidableEq, Repr

/-- Array store `a[i] = v`. -/
def store (a : Nat → Nat) (i v : Nat) : Nat → Nat :=
  fun j => if j = i then v else a j

/-- Array store `d[x][y] = b` on the two-dimensional display array. -/
def store2 (d : Nat → Nat → Bool) (x y : Nat) (b : Bool) : Nat → Nat → Bool :=
  fun i j => if i = x ∧ j = y then b else d i j

/-- Conversion of a C `int` to `unsigned char`. -/
def to_u8 (i : Int) : Nat := (i % 256).toNat

/-- Conversion of a C `int` to `unsigned short`. -/
def to_u16 (i : Int) : Nat := (i % 65536).toNat

/-- Conversion of a C `int` to `short`, on a two's-complement target: the value
with the same low 16 bits in `-32768 .. 32767`. -/
def to_i16 (i : Int) : Int := (i + 32768) % 65536 - 32768

/-- Checked read of `memory[a]`. -/
def read_memory (s : State) (a : Nat) : Except Fault Nat :=
  if a < MEMORY_SIZE then .ok (s.memory a) else .error (.memory_index a)

/-- Checked store `memory[a] = v`. -/
def write_memory (s : State) (a v : Nat) : Except Fault State :=
  if a < MEMORY_SIZE then .ok { s with memory := store s.memory a v }
  else .error (.memory_index a)

/-- Checked read of `keypad[k]`. -/
def read_keypad (s : State) (k : Nat) : Except Fault Nat :=
  if k < NUM_KEYS then .ok (s.keypad k) else .error (.keypad_index k)

/-- Modelled from the spec: `push_stack` of `registers.h` is not among the
sources; a LIFO push on the 16-entry stack with an explicit stack pointer. -/
def push_stack (s : State) (v : Nat) : State :=
  { s with stack := store s.stack s.sp v, sp := s.sp + 1 }

/-- Modelled from the spec: `pop_stack` of `registers.h` is not among the
sources; a LIFO pop, giving the popped value and the new state. -/
def pop_stack (s : State) : Nat × State :=
  (s.stack (s.sp - 1), { s with sp := s.sp - 1 })

/-! ## `get_op_code` -/

/-- The function `short get_op_code()`: the value returned and the state with
the program counter as the function leaves it.  The local `opcode` is an
`unsigned short`; `return opcode` converts it to the return type `short`. -/
def get_op_code (s : State) : Int × State :=
  if s.pc + 1 ≥ MEMORY_SIZE then
    (0x0000, s)
  else
    let opcode := ((s.memory s.pc <<< 8) ||| s.memory (s.pc + 1)) % 65536
    let s := { s with pc := (s.pc + 2) % 65536 }
    if s.pc ≥ MEMORY_SIZE then
      (0x0000, s)
    else
      (to_i16 (opcode : Int), s)

/-! ## `clear_display` -/

/-- The function `clear_display`: `for (y ...) for (x ...) display[x][y] = false`. -/
def clear_display (s : State) : State :=
  (List.range DISPLAY_HEIGHT).foldl
    (fun s y => (List.range DISPLAY_WIDTH).foldl
      (fun s x => { s with display := store2 s.display x y false }) s) s

/-! ## The loops of `start_emulator` -/

/-- Body of the inner loop of the draw instruction for one `col`. -/
def draw_pixel (x y row sprite_row : Nat) (s : State) (col : Nat) : State :=
  if sprite_row &&& (0x80 >>> col) ≠ 0 then
    let pixel_x := (s.V x + col) % DISPLAY_WIDTH
    let pixel_y := (s.V y + row) % DISPLAY_HEIGHT
    let s := if s.display pixel_x pixel_y then { s with V := store s.V 0xF 1 } else s
    { s with display := store2 s.display pixel_x pixel_y (xor (s.display pixel_x pixel_y) true) }
  else
    s

/-- Body of the outer loop of the draw instruction for one `row`: read the
sprite row, then `for (col = 0; col < 8; col++)`. -/
def draw_row (x y : Nat) (s : State) (row : Nat) : Except Fault State := do
  let sprite_row ← read_memory s (s.I + row)
  pure ((List.range 8).foldl (draw_pixel x y row sprite_row) s)

/-- The draw instruction after decoding: clear `V[0xF]`, then
`for (row = 0; row < height; row++)`. -/
def draw_sprite (x y height : Nat) (s : State) : Except Fault State :=
  (List.range height).foldlM (draw_row x y) { s with V := store s.V 0xF 0 }

/-- The scan `for (i = ...; i < NUM_KEYS; i++) if (keypad[i] != 0) ... break`:
the index at which the loop breaks, `none` when it runs to the end; `fuel` is
the number of indices still to visit. -/
def key_scan (keypad : Nat → Nat) : Nat → Nat → Option Nat
  | _, 0 => none
  | i, fuel + 1 => if keypad i ≠ 0 then some i else key_scan keypad (i + 1) fuel

/-- The loop `for (i = 0; i <= x; i++) memory[I + i] = V[i]`. -/
def dump_registers (x : Nat) (s : State) : Except Fault State :=
  (List.range (x + 1)).foldlM (fun s i => write_memory s (s.I + i) (s.V i)) s

/-- The loop `for (i = 0; i <= x; i++) V[i] = memory[I + i]`. -/
def load_registers (x : Nat) (s : State) : Except Fault State :=
  (List.range (x + 1)).foldlM
    (fun s i => do
      let v ← read_memory s (s.I + i)
      pure { s with V := store s.V i v }) s

/-! ## `start_emulator` -/

/-- The register-register group `case 0x8000` of `start_emulator`. -/
def alu (opcode x y : Nat) (s : State) : State :=
  let sub := opcode &&& 0x000F
  if sub = 0x0000 then
    { s with V := store s.V x (s.V y) }
  else if sub = 0x0001 then
    { s with V := store s.V x (s.V x ||| s.V y) }
  else if sub = 0x0002 then
    { s with V := store s.V x (s.V x &&& s.V y) }
  else if sub = 0x0003 then
    { s with V := store s.V x (s.V x ^^^ s.V y) }
  else if sub = 0x0004 then
    let s := if s.V x + s.V y > 255 then { s with V := store s.V 0xF 1 }
             else { s with V := store s.V 0xF 0 }
    { s with V := store s.V x ((s.V x + s.V y) % 256) }
  else if sub = 0x0005 then
    let s := if s.V x ≥ s.V y then { s with V := store s.V 0xF 1 }
             else { s with V := store s.V 0xF 0 }
    { s with V := store s.V x (to_u8 ((s.V x : Int) - (s.V y : Int))) }
  else if sub = 0x0006 then
    let lsb := s.V x &&& 0x01
    let s := { s with V := store s.V 0xF lsb }
    { s with V := store s.V x (s.V x >>> 1) }
  else if sub = 0x0007 then
    let s := if s.V y ≥ s.V x then { s with V := store s.V 0xF 1 }
             else { s with V := store s.V 0xF 0 }
    { s with V := store s.V x (to_u8 ((s.V y : Int) - (s.V x : Int))) }
  else if sub = 0x000E then
    let msb := (s.V x &&& 0x80) >>> 7
    let s := { s with V := store s.V 0xF msb }
    { s with V := store s.V x ((s.V x <<< 1) % 256) }
  else
    s

/-- The keypad group `case 0xE000` of `start_emulator`. -/
def key_skip (opcode x : Nat) (s : State) : Except Fault State :=
  let sub := opcode &&& 0x00FF
  if sub = 0x009E then do
    let k ← read_keypad s (s.V x)
    pure (if k ≠ 0 then { s with pc := (s.pc + 2) % 65536 } else s)
  else if sub = 0x00A1 then do
    let k ← read_keypad s (s.V x)
    pure (if k = 0 then { s with pc := (s.pc + 2) % 65536 } else s)
  else
    pure s

/-- The group `case 0xF000` of `start_emulator`. -/
def misc (opcode x : Nat) (s : State) : Except Fault State :=
  let sub := opcode &&& 0x00FF
  if sub = 0x0007 then
    pure { s with V := store s.V x s.delay }
  else if sub = 0x000A then
    match key_scan s.keypad 0 NUM_KEYS with
    | some i => pure { s with V := store s.V x i }
    | none => pure { s with pc := to_u16 ((s.pc : Int) - 2) }
  else if sub = 0x0015 then
    pure { s with delay := s.V x }
  else if sub = 0x0018 then
    pure { s with sound := s.V x }
  else if sub = 0x001E then
    pure { s with I := (s.I + s.V x) % 65536 }
  else if sub = 0x0029 then
    pure { s with I := (s.V x * 5) % 65536 }
  else if sub = 0x0033 then do
    let s ← write_memory s s.I (s.V x / 100)
    let s ← write_memory s (s.I + 1) ((s.V x / 10) % 10)
    write_memory s (s.I + 2) (s.V x % 10)
  else if sub = 0x0055 then
    dump_registers x s
  else if sub = 0x0065 then
    load_registers x s
  else
    pure s

/-- The `switch (opcode & 0xF000)` of `start_emulator`, on the state in which
the fetched word has been stored in `opcode`; `rnd` is the value the call of
`rand()` returns when the instruction makes one. -/
def dispatch (rnd : Nat) (s : State) : Except Fault State :=
  let opcode := s.opcode
  let x := (opcode &&& 0x0F00) >>> 8
  let y := (opcode &&& 0x00F0) >>> 4
  let nn := opcode &&& 0x00FF
  let group := opcode &&& 0xF000
  if group = 0x0000 then
    if opcode &&& 0x00FF = 0x00E0 then
      pure (clear_display s)
    else if opcode &&& 0x00FF = 0x00EE then
      if s.sp > 0 then
        let (top, s) := pop_stack s
        pure { s with pc := top }
      else
        pure s
    else
      pure s
  else if group = 0x1000 then
    pure { s with pc := opcode &&& 0x0FFF }
  else if group = 0x2000 then
    if s.sp < STACK_SIZE then
      let s := push_stack s s.pc
      pure { s with pc := opcode &&& 0x0FFF }
    else
      pure s
  else if group = 0x3000 then
    pure (if s.V x = nn then { s with pc := (s.pc + 2) % 65536 } else s)
  else if group = 0x4000 then
    pure (if s.V x ≠ nn then { s with pc := (s.pc + 2) % 65536 } else s)
  else if group = 0x5000 then
    pure (if s.V x = s.V y then { s with pc := (s.pc + 2) % 65536 } else s)
  else if group = 0x6000 then
    pure { s with V := store s.V x nn }
  else if group = 0x7000 then
    pure { s with V := store s.V x ((s.V x + nn) % 256) }
  else if group = 0x8000 then
    pure (alu opcode x y s)
  else if group = 0x9000 then
    pure (if s.V x ≠ s.V y then { s with pc := (s.pc + 2) % 65536 } else s)
  else if group = 0xA000 then
    pure { s with I := opcode &&& 0x0FFF }
  else if group = 0xB000 then
    pure { s with pc := ((opcode &&& 0x0FFF) + s.V 0) % 65536 }
  else if group = 0xC000 then
    pure { s with V := store s.V x ((rnd % 256) &&& nn) }
  else if group = 0xD000 then
    draw_sprite x y (opcode &&& 0x000F) s
  else if group = 0xE000 then
    key_skip opcode x s
  else if group = 0xF000 then
    misc opcode x s
  else
    pure s

/-- The function `start_emulator`: one engine step, fetch then dispatch.  The
assignment `opcode = get_op_code()` keeps the low 16 bits of the `short`
returned. -/
def start_emulator (rnd : Nat) (s : State) : Except Fault State :=
  let (opcode, s) := get_op_code s
  dispatch rnd { s with opcode := to_u16 opcode }

/-! ## Concrete states and specification vocabulary -/

/-- All registers, timers, latches, pixels and memory cells zero, `pc = 0x200`. -/
def blank : State :=
  { memory := fun _ => 0, V := fun _ => 0, I := 0, pc := 0x200, sp := 0,
    stack := fun _ => 0, delay := 0, sound := 0, keypad := fun _ => 0,
    display := fun _ _ => false, opcode := 0 }

/-- The state `s` with the two bytes of one instruction at `0x200` and `pc = 0x200`. -/
def with_instruction (hi lo : Nat) (s : State) : State :=
  { s with memory := store (store s.memory 0x200 hi) 0x201 lo, pc := 0x200 }

/-- The add scenario: `V0 = 0xFF`, `V1 = 0x01`, instruction `80 14`. -/
def add_scenario : State :=
  with_instruction 0x80 0x14 { blank with V := store (store blank.V 0 0xFF) 1 0x01 }

/-- A subtraction that borrows: `V2 = 3`, `V3 = 5`, instruction `82 35`. -/
def sub_scenario : State :=
  with_instruction 0x82 0x35 { blank with V := store (store blank.V 2 3) 3 5 }

/-- Shift right of the flag register itself: `VF = 1`, instruction `8F 06`. -/
def shr_flag_scenario : State :=
  with_instruction 0x8F 0x06 { blank with V := store blank.V 0xF 1 }

/-- Shift left of the flag register itself: `VF = 0x80`, instruction `8F 0E`. -/
def shl_flag_scenario : State :=
  with_instruction 0x8F 0x0E { blank with V := store blank.V 0xF 0x80 }

/-- A sprite that crosses the right and the bottom edge: `V0 = 62`, `V1 = 31`,
`I = 0x300`, two rows `FF FF` at `0x300`, instruction `D0 12`; the pixel
`(10, 10)` is already set. -/
def wrap_scenario : State :=
  with_instruction 0xD0 0x12
    { blank with
      V := store (store blank.V 0 62) 1 31
      I := 0x300
      memory := store (store blank.memory 0x300 0xFF) 0x301 0xFF
      display := store2 blank.display 10 10 true }

/-- A draw over set pixels, entered with a stale flag: `V0 = 0`, `V1 = 0`,
`VF = 7`, `I = 0x300`, one row `80` at `0x300`, instruction `D0 01`; the pixel
`(0, 0)` is already set. -/
def collision_scenario : State :=
  with_instruction 0xD0 0x01
    { blank with
      V := store blank.V 0xF 7
      I := 0x300
      memory := store blank.memory 0x300 0x80
      display := store2 blank.display 0 0 true }

/-- Keys 3 and 7 held down, instruction `F5 0A`. -/
def key_scenario : State :=
  with_instruction 0xF5 0x0A { blank with keypad := store (store blank.keypad 7 1) 3 1 }

/-- A call at `0x200` to `0x300` (`23 00`) with the return `00 EE` at `0x300`,
two entries already on the stack. -/
def call_scenario : State :=
  with_instruction 0x23 0x00
    { blank with
      memory := store (store blank.memory 0x300 0x00) 0x301 0xEE
      sp := 2
      stack := store (store blank.stack 0 0x111) 1 0x222 }

/-- A call `23 00` at `0x200` with all 16 stack entries in use. -/
def full_stack_scenario : State :=
  with_instruction 0x23 0x00 { blank with sp := 16, stack := fun i => 0x200 + 2 * i }

/-- A clear `00 E0` on a display with pixels set, with `VF = 1`. -/
def clear_scenario : State :=
  with_instruction 0x00 0xE0
    { blank with V := store blank.V 0xF 1, display := fun x y => decide (x = y) }

/-- A dump `F1 55` of `V0 = 11`, `V1 = 22` to `I = 0x300`, followed in memory
by the load `F1 65`. -/
def dump_scenario : State :=
  with_instruction 0xF1 0x55
    { blank with
      V := store (store blank.V 0 11) 1 22
      I := 0x300
      memory := store (store blank.memory 0x202 0xF1) 0x203 0x65 }

/-- The last two bytes of memory hold `12 34` and `pc = 4094`: both bytes of the
word lie inside memory. -/
def fetch_edge : State :=
  { blank with pc := 4094, memory := store (store blank.memory 4094 0x12) 4095 0x34 }

/-- An ordinary fetch: `pc = 0x200` with the bytes `A2 F0` there. -/
def fetch_inside : State := with_instruction 0xA2 0xF0 blank

/-- A program counter on the last byte of memory: `pc = 4095`. -/
def fetch_outside : State := { blank with pc := 4095, V := store blank.V 3 9 }

/-- A decimal conversion: `V3 = 234`, `I = 0x300`, instruction `F3 33`. -/
def bcd_scenario : State :=
  with_instruction 0xF3 0x33 { blank with V := store blank.V 3 234, I := 0x300 }

/-- The word `01 E0`, of group 0 but not `00E0`, on a display with the diagonal
set. -/
def unknown_clear_scenario : State :=
  with_instruction 0x01 0xE0 { blank with display := fun x y => decide (x = y) }

/-- The word `01 EE`, of group 0 but not `00EE`, with one stack entry `0x345`. -/
def unknown_return_scenario : State :=
  with_instruction 0x01 0xEE { blank with sp := 1, stack := store blank.stack 0 0x345 }

/-- The word `50 11`, group 5 with low nibble 1, with `V0 = V1 = 0`. -/
def unknown_skip_eq_scenario : State := with_instruction 0x50 0x11 blank

/-- The word `90 11`, group 9 with low nibble 1, with `V0 = 1`, `V1 = 0`. -/
def unknown_skip_ne_scenario : State :=
  with_instruction 0x90 0x11 { blank with V := store blank.V 0 1 }

/-- The word `8A B9`, group 8 with low nibble 9, with `VA = 7`, `VB = 200`. -/
def unknown_alu_scenario : State :=
  with_instruction 0x8A 0xB9 { blank with V := store (store blank.V 0xA 7) 0xB 200 }

/-- The instruction words for which the `switch` statements of `start_emulator`
end in a `default:` branch: group 0 with low byte other than `E0` and `EE`,
group 8 with low nibble outside `0..7` and `E`, group E with low byte other than
`9E` and `A1`, group F with a low byte that is no `case` label. -/
def reaches_default (w : Nat) : Prop :=
  (w / 4096 % 16 = 0 ∧ w % 256 ≠ 0xE0 ∧ w % 256 ≠ 0xEE) ∨
  (w / 4096 % 16 = 8 ∧ 8 ≤ w % 16 ∧ w % 16 ≠ 0xE) ∨
  (w / 4096 % 16 = 0xE ∧ w % 256 ≠ 0x9E ∧ w % 256 ≠ 0xA1) ∨
  (w / 4096 % 16 = 0xF ∧ w % 256 ≠ 0x07 ∧ w % 256 ≠ 0x0A ∧ w % 256 ≠ 0x15 ∧
    w % 256 ≠ 0x18 ∧ w % 256 ≠ 0x1E ∧ w % 256 ≠ 0x29 ∧ w % 256 ≠ 0x33 ∧
    w % 256 ≠ 0x55 ∧ w % 256 ≠ 0x65)

/-- A two-row draw `D0 02` from the last byte of memory, `I = 0xFFF`. -/
def draw_past_end_scenario : State := with_instruction 0xD0 0x02 { blank with I := 0xFFF }

/-- A decimal store `F0 33` with `I = 0xFFE`. -/
def bcd_past_end_scenario : State := with_instruction 0xF0 0x33 { blank with I := 0xFFE }

/-- A dump `F1 55` of two registers with `I = 0xFFF`. -/
def dump_past_end_scenario : State := with_instruction 0xF1 0x55 { blank with I := 0xFFF }

/-- A load `F1 65` of two registers with `I = 0xFFF`. -/
def load_past_end_scenario : State := with_instruction 0xF1 0x65 { blank with I := 0xFFF }

/-- The skip `E0 9E` with `V0 = 16`. -/
def key_pressed_past_end_scenario : State :=
  with_instruction 0xE0 0x9E { blank with V := store blank.V 0 16 }

/-- The skip `E0 A1` with `V0 = 0xFF`. -/
def key_released_past_end_scenario : State :=
  with_instruction 0xE0 0xA1 { blank with V := store blank.V 0 0xFF }

/-- The add `80 F4` with `V0 = 1`, `VF = 5`. -/
def add_flag_operand_scenario : State :=
  with_instruction 0x80 0xF4 { blank with V := store (store blank.V 0 1) 0xF 5 }

/-- The subtract `80 F5` with `V0 = 9`, `VF = 5`. -/
def sub_flag_operand_scenario : State :=
  with_instruction 0x80 0xF5 { blank with V := store (store blank.V 0 9) 0xF 5 }

/-- The reverse subtract `80 F7` with `V0 = 1`, `VF = 5`. -/
def rsub_flag_operand_scenario : State :=
  with_instruction 0x80 0xF7 { blank with V := store (store blank.V 0 1) 0xF 5 }

/-- The draw `DF 01` with `VF = 8`, `V0 = 0`, `I = 0x300` and the row `80` at
`0x300`, on a blank display. -/
def draw_flag_operand_scenario : State :=
  with_instruction 0xDF 0x01
    { blank with V := store blank.V 0xF 8, I := 0x300, memory := store blank.memory 0x300 0x80 }

/-- The same draw `D0 12` twice in a row, at `0x200` and `0x202`: `V0 = 62`,
`V1 = 31`, `I = 0x300`, rows `FF 81` at `0x300`, on a display with the diagonal
set. -/
def draw_twice_scenario : State :=
  with_instruction 0xD0 0x12
    { blank with
      V := store (store blank.V 0 62) 1 31
      I := 0x300
      memory := store (store (store (store blank.memory 0x300 0xFF) 0x301 0x81)
        0x202 0xD0) 0x203 0x12
      display := fun x y => decide (x = y) }

/-- Repeated engine steps: `n` calls of `start_emulator`, the call with `k`
steps still to go drawing the value `rnd k` from `rand()`. -/
def run (rnd : Nat → Nat) : Nat → State → Except Fault State
  | 0, s => .ok s
  | n + 1, s => do
    let t ← start_emulator (rnd n) s
    run rnd n t

/-- The bytes of the glyph for the digit 0. -/
def digit0_glyph : List Nat := [0xF0, 0x90, 0x90, 0x90, 0xF0]

/-- The pixel `(px, py)` belongs to the glyph `g` drawn with its top-left corner
at `(ox, oy)`. -/
def glyph_at (g : List Nat) (ox oy px py : Nat) : Prop :=
  ∃ row col, row < g.length ∧ col < 8 ∧ (g.getD row 0).testBit (7 - col) = true ∧
    px = ox + col ∧ py = oy + row

/-- The glyph scenario: all registers zero, `I = 0`, a blank display, the bytes
`F0 90 90 90 F0` at addresses 0..4 and the program `00 E0 60 0A A0 00 D0 05` at
`pc = 0x200`. -/
def glyph_scenario : State :=
  { blank with
    memory := fun a =>
      if a < 5 then digit0_glyph.getD a 0
      else [0x00, 0xE0, 0x60, 0x0A, 0xA0, 0x00, 0xD0, 0x05].getD (a - 0x200) 0 }

/-- The jump `12 01` to the odd address `0x201`. -/
def jump_odd_scenario : State := with_instruction 0x12 0x01 blank

/-- The call `22 01` to the odd address `0x201`, on an empty stack. -/
def call_odd_scenario : State := with_instruction 0x22 0x01 blank

/-- The offset jump `BF FF` with `V0 = 0xFF`. -/
def offset_jump_scenario : State :=
  with_instruction 0xBF 0xFF { blank with V := store blank.V 0 0xFF }

/-- The return `00 EE` with the single stack entry `0x345`. -/
def return_odd_scenario : State :=
  with_instruction 0x00 0xEE { blank with sp := 1, stack := store blank.stack 0 0x345 }

/-- The skip `30 00` at `pc = 4092` with `V0 = 0`. -/
def skip_at_end_scenario : State :=
  { blank with pc := 4092, memory := store (store blank.memory 4092 0x30) 4093 0x00 }

/-- The key skip `E0 A1` at `pc = 4092` with `V0 = 0` and no key down. -/
def key_skip_at_end_scenario : State :=
  { blank with pc := 4092, memory := store (store blank.memory 4092 0xE0) 4093 0xA1 }

/-- The load `60 07` at `pc = 4092`, the last place from which a fetch succeeds. -/
def load_at_end_scenario : State :=
  { blank with pc := 4092, memory := store (store blank.memory 4092 0x60) 4093 0x07 }

/-- The call `22 01` to an odd address with all 16 stack entries in use. -/
def call_odd_full_stack_scenario : State :=
  with_instruction 0x22 0x01 { blank with sp := 16 }

/-- The word `w` is a conditional skip whose condition holds in state `s`:
`3xnn`, `4xnn`, `5xy.`, `9xy.`, `Ex9E` or `ExA1`. -/
def skip_taken (s : State) (w : Nat) : Prop :=
  (w / 4096 % 16 = 3 ∧ s.V (w / 256 % 16) = w % 256) ∨
  (w / 4096 % 16 = 4 ∧ s.V (w / 256 % 16) ≠ w % 256) ∨
  (w / 4096 % 16 = 5 ∧ s.V (w / 256 % 16) = s.V (w / 16 % 16)) ∨
  (w / 4096 % 16 = 9 ∧ s.V (w / 256 % 16) ≠ s.V (w / 16 % 16)) ∨
  (w / 4096 % 16 = 14 ∧ w % 256 = 0x9E ∧ s.keypad (s.V (w / 256 % 16)) ≠ 0) ∨
  (w / 4096 % 16 = 14 ∧ w % 256 = 0xA1 ∧ s.keypad (s.V (w / 256 % 16)) = 0)

/-- The program counter that the word `w` asks for in state `s` is even and
inside memory: the target `nnn` of a jump `1nnn`, and of a call `2nnn` that is
taken (`sp < 16`), is even; the target `nnn + V0` of an offset jump `Bnnn` is
even and below 4096; the stack entry that a return (group 0, low byte `EE`) pops
is even and below 4096; and a skip that is taken has `PC + 4 < 4096`. -/
def pc_target_ok (s : State) (w : Nat) : Prop :=
  (w / 4096 % 16 = 1 → w % 4096 % 2 = 0) ∧
  (w / 4096 % 16 = 2 → s.sp < 16 → w % 4096 % 2 = 0) ∧
  (w / 4096 % 16 = 11 → (w % 4096 + s.V 0) % 2 = 0 ∧ w % 4096 + s.V 0 < 4096) ∧
  (w / 4096 % 16 = 0 → w % 256 = 0xEE → 0 < s.sp →
    s.stack (s.sp - 1) % 2 = 0 ∧ s.stack (s.sp - 1) < 4096) ∧
  (skip_taken s w → s.pc + 4 < 4096)

/-! ## Pixel sets -/

/-- The state `t` comes from `s` by inverting exactly the pixels in `T` and
raising the collision flag `V[0xF]` when one of them was set in `s`; nothing
else differs. -/
structure Toggled (T : Nat → Nat → Prop) (s t : State) : Prop where
  memory_eq : t.memory = s.memory
  I_eq : t.I = s.I
  pc_eq : t.pc = s.pc
  sp_eq : t.sp = s.sp
  stack_eq : t.stack = s.stack
  delay_eq : t.delay = s.delay
  sound_eq : t.sound = s.sound
  keypad_eq : t.keypad = s.keypad
  opcode_eq : t.opcode = s.opcode
  regs : ∀ i, i ≠ 0xF → t.V i = s.V i
  inverted : ∀ px py, T px py → t.display px py = !s.display px py
  kept : ∀ px py, ¬ T px py → t.display px py = s.display px py
  hit : (∃ px py, T px py ∧ s.display px py = true) → t.V 0xF = 1
  miss : ¬ (∃ px py, T px py ∧ s.display px py = true) → t.V 0xF = s.V 0xF

/-- The pixels a draw of `height` rows at `(vx, vy)` from address `I` inverts:
`((vx + col) mod 64, (vy + row) mod 32)` for the set bits `7 - col` of
`memory[I + row]`. -/
def sprite_pixels (memory : Nat → Nat) (I vx vy height : Nat) (px py : Nat) : Prop :=
  ∃ row col, row < height ∧ col < 8 ∧ (memory (I + row)).testBit (7 - col) = true ∧
    px = (vx + col) % 64 ∧ py = (vy + row) % 32

/-! ## Decoding -/

theorem and_mask_shift (w k m : Nat) :
    (w &&& ((2 ^ m - 1) <<< k)) >>> k = w / 2 ^ k % 2 ^ m := by
  apply Nat.eq_of_testBit_eq
  intro i
  rw [← Nat.shiftRight_eq_div_pow]
  simp only [Nat.testBit_shiftRight, Nat.testBit_and, Nat.testBit_shiftLeft,
    Nat.testBit_mod_two_pow, Nat.testBit_two_pow_sub_one]
  by_cases h : i < m <;> simp [h]

theorem and_mask_high (w k m : Nat) :
    w &&& ((2 ^ m - 1) <<< k) = (w / 2 ^ k % 2 ^ m) * 2 ^ k := by
  apply Nat.eq_of_testBit_eq
  intro i
  rw [← Nat.shiftRight_eq_div_pow, ← Nat.shiftLeft_eq]
  simp only [Nat.testBit_shiftRight, Nat.testBit_and, Nat.testBit_shiftLeft,
    Nat.testBit_mod_two_pow, Nat.testBit_two_pow_sub_one]
  by_cases h : k ≤ i
  · simp [h, Nat.add_sub_cancel' h]
    by_cases h2 : i - k < m <;> simp [h2, Bool.and_comm]
  · simp [h]

theorem decode_x (w : Nat) : (w &&& 0x0F00) >>> 8 = w / 256 % 16 := and_mask_shift w 8 4

theorem decode_y (w : Nat) : (w &&& 0x00F0) >>> 4 = w / 16 % 16 := and_mask_shift w 4 4

theorem decode_group (w : Nat) : w &&& 0xF000 = (w / 4096 % 16) * 4096 :=
  and_mask_high w 12 4

theorem decode_nn (w : Nat) : w &&& 0x00FF = w % 256 := Nat.and_pow_two_sub_one_eq_mod w 8

theorem decode_nnn (w : Nat) : w &&& 0x0FFF = w % 4096 := Nat.and_pow_two_sub_one_eq_mod w 12

theorem decode_n (w : Nat) : w &&& 0x000F = w % 16 := Nat.and_pow_two_sub_one_eq_mod w 4

theorem fetch_word (hi lo : Nat) (h : lo < 256) : (hi <<< 8) ||| lo = 256 * hi + lo := by
  rw [Nat.shiftLeft_eq, Nat.mul_comm]
  exact (Nat.mul_add_lt_is_or (i := 8) h hi).symm

/-- The low 16 bits of the `short` made from a 16-bit word are the word. -/
theorem to_u16_to_i16 (w : Nat) (h : w < 65536) : to_u16 (to_i16 (w : Int)) = w := by
  unfold to_u16 to_i16
  omega

/-- A fetch inside memory yields the big-endian word, as a `short`, and advances
`pc` by 2. -/
theorem get_op_code_ok (s : State) (hpc : s.pc + 2 < MEMORY_SIZE)
    (hhi : s.memory s.pc < 256) (hlo : s.memory (s.pc + 1) < 256) :
    get_op_code s =
      (to_i16 ((256 * s.memory s.pc + s.memory (s.pc + 1) : Nat) : Int),
        { s with pc := s.pc + 2 }) := by
  unfold MEMORY_SIZE at hpc
  have h1 : ¬ (s.pc + 1 ≥ MEMORY_SIZE) := by unfold MEMORY_SIZE; omega
  have h2 : (s.pc + 2) % 65536 = s.pc + 2 := by omega
  have h3 : ¬ (s.pc + 2 ≥ MEMORY_SIZE) := by unfold MEMORY_SIZE; omega
  have h4 : (256 * s.memory s.pc + s.memory (s.pc + 1)) % 65536
      = 256 * s.memory s.pc + s.memory (s.pc + 1) := by omega
  simp only [get_op_code, h1, if_false, h2, h3, fetch_word _ _ hlo, h4]

/-- One step on a state whose instruction is fetched inside memory. -/
theorem start_emulator_fetch (rnd : Nat) (s : State) (hi lo : Nat)
    (hpc : s.pc + 2 < MEMORY_SIZE) (hhi : s.memory s.pc = hi) (hlo : s.memory (s.pc + 1) = lo)
    (hi_lt : hi < 256) (lo_lt : lo < 256) :
    start_emulator rnd s = dispatch rnd { s with pc := s.pc + 2, opcode := 256 * hi + lo } := by
  unfold start_emulator
  rw [get_op_code_ok s hpc (hhi ▸ hi_lt) (hlo ▸ lo_lt), hhi, hlo]
  simp only []
  rw [to_u16_to_i16 _ (by omega)]

/-- A word of group 8 is executed by `alu`. -/
theorem dispatch_alu (rnd : Nat) (s : State) (h : s.opcode / 4096 % 16 = 8) :
    dispatch rnd s
      = .ok (alu s.opcode (s.opcode / 256 % 16) (s.opcode / 16 % 16) s) := by
  unfold dispatch
  simp only [decode_group, decode_x, decode_y, h]
  simp
  rfl

/-! ## Register-register arithmetic -/

/-- C1: add-with-carry `8xy4` with `x` and `y` both different from `0xF`: the
step returns, `VF` is 1 when `Vx + Vy > 255` and 0 otherwise, and `Vx` is
`(Vx + Vy) mod 256`, all in terms of the values held before the step. -/
theorem add_with_carry_step (rnd : Nat) (s : State) (x y : Nat)
    (hx : x < 15) (hy : y < 15) (hpc : s.pc + 2 < MEMORY_SIZE)
    (hhi : s.memory s.pc = 0x80 + x) (hlo : s.memory (s.pc + 1) = 16 * y + 4) :
    ∃ s', start_emulator rnd s = .ok s' ∧
      (s'.V 0xF = 1 ↔ s.V x + s.V y > 255) ∧
      (s'.V 0xF = 0 ↔ ¬ (s.V x + s.V y > 255)) ∧
      s'.V x = (s.V x + s.V y) % 256 := by
  rw [start_emulator_fetch rnd s _ _ hpc hhi hlo (by omega) (by omega),
    dispatch_alu _ _ (by simp only []; omega)]
  refine ⟨_, rfl, ?_⟩
  have e1 : (256 * (0x80 + x) + (16 * y + 4)) / 256 % 16 = x := by omega
  have e2 : (256 * (0x80 + x) + (16 * y + 4)) / 16 % 16 = y := by omega
  have e3 : (256 * (0x80 + x) + (16 * y + 4)) % 16 = 4 := by omega
  have hxF : x ≠ 15 := by omega
  have hyF : y ≠ 15 := by omega
  have hFx : ¬ (15 = x) := by omega
  simp only [alu, decode_n, e1, e2, e3]
  by_cases hc : s.V x + s.V y > 255 <;>
    simp [store, hxF, hyF, hFx, hc]

/-- The scenario of C1: `V0 = 0xFF`, `V1 = 0x01`, instruction `80 14` gives
`V0 = 0x00` and `VF = 1`. -/
theorem add_with_carry_step_scenario :
    ∃ s', start_emulator 0 add_scenario = .ok s' ∧ s'.V 0 = 0x00 ∧ s'.V 0xF = 1 := by
  obtain ⟨s', h, h1, _, h3⟩ :=
    add_with_carry_step 0 add_scenario 0 1 (by decide) (by decide) (by decide) (by decide)
      (by decide)
  exact ⟨s', h, h3, h1.mpr (by decide)⟩

/-- C2: subtract `8xy5` with `x` and `y` both different from `0xF`: the step
returns, `VF` is 1 when `Vx >= Vy` and 0 otherwise, and `Vx` is `(Vx - Vy) mod 256`
(the difference taken in the integers), all in terms of the values held before
the step. -/
theorem subtract_step (rnd : Nat) (s : State) (x y : Nat)
    (hx : x < 15) (hy : y < 15) (hpc : s.pc + 2 < MEMORY_SIZE)
    (hhi : s.memory s.pc = 0x80 + x) (hlo : s.memory (s.pc + 1) = 16 * y + 5) :
    ∃ s', start_emulator rnd s = .ok s' ∧
      (s'.V 0xF = 1 ↔ s.V x ≥ s.V y) ∧
      (s'.V 0xF = 0 ↔ ¬ (s.V x ≥ s.V y)) ∧
      (s'.V x : Int) = ((s.V x : Int) - (s.V y : Int)) % 256 := by
  rw [start_emulator_fetch rnd s _ _ hpc hhi hlo (by omega) (by omega),
    dispatch_alu _ _ (by simp only []; omega)]
  refine ⟨_, rfl, ?_⟩
  have e1 : (256 * (0x80 + x) + (16 * y + 5)) / 256 % 16 = x := by omega
  have e2 : (256 * (0x80 + x) + (16 * y + 5)) / 16 % 16 = y := by omega
  have e3 : (256 * (0x80 + x) + (16 * y + 5)) % 16 = 5 := by omega
  have hxF : x ≠ 15 := by omega
  have hyF : y ≠ 15 := by omega
  have hFx : ¬ (15 = x) := by omega
  have hu : ((to_u8 ((s.V x : Int) - (s.V y : Int)) : Nat) : Int)
      = ((s.V x : Int) - (s.V y : Int)) % 256 := by
    unfold to_u8
    omega
  simp only [alu, decode_n, e1, e2, e3]
  by_cases hc : s.V x ≥ s.V y <;>
    simp [store, hxF, hyF, hFx, hc, hu]

/-- A borrowing instance of C2: `V2 = 3`, `V3 = 5`, instruction `82 35` gives
`V2 = 254` and `VF = 0`. -/
theorem subtract_step_scenario :
    ∃ s', start_emulator 0 sub_scenario = .ok s' ∧ s'.V 2 = 254 ∧ s'.V 0xF = 0 := by
  obtain ⟨s', h, _, h2, h3⟩ :=
    subtract_step 0 sub_scenario 2 3 (by decide) (by decide) (by decide) (by decide)
      (by decide)
  refine ⟨s', h, ?_, h2.mpr (by decide)⟩
  have e : ((sub_scenario.V 2 : Int) - (sub_scenario.V 3 : Int)) % 256 = 254 := by decide
  rw [e] at h3
  exact_mod_cast h3

/-- C3, at the flag register: shifting `VF` itself leaves the shifted value in
`VF`, not the bit shifted out.  With `VF = 1`, `8F06` ends with `VF = 0` although
bit 0 of the operand was 1; with `VF = 0x80`, `8F0E` ends with `VF = 2` although
bit 7 of the operand was 1. -/
theorem shift_of_flag_register_loses_flag :
    (∃ s', start_emulator 0 shr_flag_scenario = .ok s' ∧
      shr_flag_scenario.V 0xF % 2 = 1 ∧ s'.V 0xF = 0) ∧
    (∃ s', start_emulator 0 shl_flag_scenario = .ok s' ∧
      shl_flag_scenario.V 0xF / 128 % 2 = 1 ∧ s'.V 0xF = 2) :=
  ⟨⟨_, rfl, by decide, by decide⟩, ⟨_, rfl, by decide, by decide⟩⟩

/-- Shift right `8xy6` and shift left `8xyE` on a register other than `VF`: `VF`
receives bit 0, respectively bit 7, of the value `Vx` held before the step, and
`Vx` the shifted value. -/
theorem shift_step_other_register (rnd : Nat) (s : State) (x y n : Nat)
    (hx : x < 15) (hy : y < 16) (hn : n = 6 ∨ n = 14)
    (hpc : s.pc + 2 < MEMORY_SIZE)
    (hhi : s.memory s.pc = 0x80 + x) (hlo : s.memory (s.pc + 1) = 16 * y + n) :
    ∃ s', start_emulator rnd s = .ok s' ∧
      (n = 6 → s'.V 0xF = s.V x % 2 ∧ s'.V x = s.V x / 2) ∧
      (n = 14 → s'.V 0xF = s.V x / 128 % 2 ∧ s'.V x = (2 * s.V x) % 256) := by
  rw [start_emulator_fetch rnd s _ _ hpc hhi hlo (by omega) (by omega),
    dispatch_alu _ _ (by simp only []; omega)]
  refine ⟨_, rfl, ?_⟩
  have e1 : (256 * (0x80 + x) + (16 * y + n)) / 256 % 16 = x := by omega
  have e3 : (256 * (0x80 + x) + (16 * y + n)) % 16 = n := by omega
  have hxF : x ≠ 15 := by omega
  have hFx : ¬ (15 = x) := by omega
  have b0 : s.V x &&& 0x01 = s.V x % 2 := Nat.and_pow_two_sub_one_eq_mod (s.V x) 1
  have b7 : (s.V x &&& 0x80) >>> 7 = s.V x / 128 % 2 := by
    have h := and_mask_shift (s.V x) 7 1
    simpa using h
  simp only [alu, decode_n, e1, e3]
  rcases hn with rfl | rfl
  · simp [store, hxF, hFx, b0, Nat.shiftRight_eq_div_pow]
  · simp [store, hxF, hFx, b7, Nat.shiftLeft_eq, Nat.mul_comm]

/-! ## Sprite drawing -/

theorem sprite_bit_test (m col : Nat) (h : col < 8) :
    (m &&& (0x80 >>> col) ≠ 0) ↔ m.testBit (7 - col) = true := by
  have e : (0x80 : Nat) >>> col = 2 ^ (7 - col) := by
    interval_cases col <;> rfl
  rw [e, Nat.and_two_pow]
  cases m.testBit (7 - col) <;> simp

theorem Toggled.rfl_empty (s : State) : Toggled (fun _ _ => False) s s :=
  { memory_eq := rfl, I_eq := rfl, pc_eq := rfl, sp_eq := rfl, stack_eq := rfl,
    delay_eq := rfl, sound_eq := rfl, keypad_eq := rfl, opcode_eq := rfl,
    regs := fun _ _ => rfl, inverted := fun _ _ h => h.elim, kept := fun _ _ _ => rfl,
    hit := fun ⟨_, _, h, _⟩ => h.elim, miss := fun _ => rfl }

theorem Toggled.congr {T T2 : Nat → Nat → Prop} {s t : State} (h : Toggled T s t)
    (e : ∀ px py, T px py ↔ T2 px py) : Toggled T2 s t :=
  { memory_eq := h.memory_eq, I_eq := h.I_eq, pc_eq := h.pc_eq, sp_eq := h.sp_eq,
    stack_eq := h.stack_eq, delay_eq := h.delay_eq, sound_eq := h.sound_eq,
    keypad_eq := h.keypad_eq, opcode_eq := h.opcode_eq, regs := h.regs,
    inverted := fun px py hT => h.inverted px py ((e px py).mpr hT),
    kept := fun px py hT => h.kept px py (fun h2 => hT ((e px py).mp h2)),
    hit := fun ⟨px, py, hT, hd⟩ => h.hit ⟨px, py, (e px py).mpr hT, hd⟩,
    miss := fun hn => h.miss (fun ⟨px, py, hT, hd⟩ => hn ⟨px, py, (e px py).mp hT, hd⟩) }

/-- Two successive toggle phases over disjoint pixel sets make one phase over
the union. -/
theorem Toggled.trans {T1 T2 : Nat → Nat → Prop} {s t u : State}
    (h1 : Toggled T1 s t) (h2 : Toggled T2 t u)
    (disj : ∀ px py, T1 px py → T2 px py → False) :
    Toggled (fun px py => T1 px py ∨ T2 px py) s u := by
  refine
    { memory_eq := h2.memory_eq.trans h1.memory_eq, I_eq := h2.I_eq.trans h1.I_eq,
      pc_eq := h2.pc_eq.trans h1.pc_eq, sp_eq := h2.sp_eq.trans h1.sp_eq,
      stack_eq := h2.stack_eq.trans h1.stack_eq, delay_eq := h2.delay_eq.trans h1.delay_eq,
      sound_eq := h2.sound_eq.trans h1.sound_eq, keypad_eq := h2.keypad_eq.trans h1.keypad_eq,
      opcode_eq := h2.opcode_eq.trans h1.opcode_eq,
      regs := fun i hi => (h2.regs i hi).trans (h1.regs i hi),
      inverted := ?_, kept := ?_, hit := ?_, miss := ?_ }
  · intro px py hT
    rcases hT with hT | hT
    · rw [h2.kept px py (fun h => disj px py hT h), h1.inverted px py hT]
    · rw [h2.inverted px py hT, h1.kept px py (fun h => disj px py h hT)]
  · intro px py hT
    rw [h2.kept px py (fun h => hT (Or.inr h)), h1.kept px py (fun h => hT (Or.inl h))]
  · rintro ⟨px, py, hT, hd⟩
    rcases hT with hT | hT
    · by_cases hh : ∃ qx qy, T2 qx qy ∧ t.display qx qy = true
      · exact h2.hit hh
      · rw [h2.miss hh]
        exact h1.hit ⟨px, py, hT, hd⟩
    · apply h2.hit
      refine ⟨px, py, hT, ?_⟩
      rw [h1.kept px py (fun h => disj px py h hT)]
      exact hd
  · intro hn
    have m2 : ¬ ∃ qx qy, T2 qx qy ∧ t.display qx qy = true := by
      rintro ⟨qx, qy, hT, hd⟩
      rw [h1.kept qx qy (fun h => disj qx qy h hT)] at hd
      exact hn ⟨qx, qy, Or.inr hT, hd⟩
    rw [h2.miss m2]
    exact h1.miss (fun ⟨qx, qy, hT, hd⟩ => hn ⟨qx, qy, Or.inl hT, hd⟩)

/-- One iteration of the inner loop inverts the pixel of a set bit. -/
theorem draw_pixel_toggled (x y row sprite_row col : Nat) (s : State) :
    Toggled (fun px py => sprite_row &&& (0x80 >>> col) ≠ 0 ∧
        px = (s.V x + col) % DISPLAY_WIDTH ∧ py = (s.V y + row) % DISPLAY_HEIGHT)
      s (draw_pixel x y row sprite_row s col) := by
  unfold draw_pixel
  by_cases hb : sprite_row &&& (0x80 >>> col) ≠ 0
  · rw [if_pos hb]
    cases hd : s.display ((s.V x + col) % DISPLAY_WIDTH) ((s.V y + row) % DISPLAY_HEIGHT)
    · simp only [hd, Bool.false_eq_true, ↓reduceIte]
      refine
        { memory_eq := rfl, I_eq := rfl, pc_eq := rfl, sp_eq := rfl, stack_eq := rfl,
          delay_eq := rfl, sound_eq := rfl, keypad_eq := rfl, opcode_eq := rfl,
          regs := fun _ _ => rfl, inverted := ?_, kept := ?_, hit := ?_, miss := fun _ => rfl }
      · rintro px py ⟨-, rfl, rfl⟩
        simp [store2, hd]
      · intro px py hT
        have : ¬ (px = (s.V x + col) % DISPLAY_WIDTH ∧ py = (s.V y + row) % DISPLAY_HEIGHT) :=
          fun h => hT ⟨hb, h.1, h.2⟩
        simp [store2, this]
      · rintro ⟨px, py, ⟨-, rfl, rfl⟩, h⟩
        rw [hd] at h
        exact absurd h (by decide)
    · simp only [hd, ↓reduceIte]
      refine
        { memory_eq := rfl, I_eq := rfl, pc_eq := rfl, sp_eq := rfl, stack_eq := rfl,
          delay_eq := rfl, sound_eq := rfl, keypad_eq := rfl, opcode_eq := rfl,
          regs := ?_, inverted := ?_, kept := ?_, hit := ?_, miss := ?_ }
      · intro i hi
        simp [store, hi]
      · rintro px py ⟨-, rfl, rfl⟩
        simp [store2, hd]
      · intro px py hT
        have : ¬ (px = (s.V x + col) % DISPLAY_WIDTH ∧ py = (s.V y + row) % DISPLAY_HEIGHT) :=
          fun h => hT ⟨hb, h.1, h.2⟩
        simp [store2, this]
      · intro _
        simp [store]
      · intro hn
        exact (hn ⟨_, _, ⟨hb, rfl, rfl⟩, hd⟩).elim
  · rw [if_neg hb]
    exact (Toggled.rfl_empty s).congr (fun px py => by simp [hb])

/-- The inner loop over the first `c` columns of one sprite row. -/
theorem draw_cols_toggled (x y row sprite_row : Nat) (s : State) (hx : x ≠ 0xF) (hy : y ≠ 0xF)
    (c : Nat) (hc : c ≤ 8) :
    Toggled (fun px py => ∃ col, col < c ∧ sprite_row &&& (0x80 >>> col) ≠ 0 ∧
        px = (s.V x + col) % 64 ∧ py = (s.V y + row) % 32)
      s ((List.range c).foldl (draw_pixel x y row sprite_row) s) := by
  induction c with
  | zero =>
    exact (Toggled.rfl_empty s).congr (fun px py => by simp)
  | succ c ih =>
    have ih := ih (by omega)
    rw [List.range_succ, List.foldl_append, List.foldl_cons, List.foldl_nil]
    have step := draw_pixel_toggled x y row sprite_row c
      ((List.range c).foldl (draw_pixel x y row sprite_row) s)
    rw [ih.regs x hx, ih.regs y hy] at step
    refine (ih.trans step ?_).congr ?_
    · rintro px py ⟨col, hcol, -, hpx, -⟩ ⟨-, hpx2, -⟩
      unfold DISPLAY_WIDTH at hpx2
      omega
    · intro px py
      constructor
      · rintro (⟨col, hcol, hb, h1, h2⟩ | ⟨hb, h1, h2⟩)
        · exact ⟨col, by omega, hb, h1, h2⟩
        · exact ⟨c, by omega, hb, h1, h2⟩
      · rintro ⟨col, hcol, hb, h1, h2⟩
        by_cases e : col = c
        · subst e
          exact Or.inr ⟨hb, h1, h2⟩
        · exact Or.inl ⟨col, by omega, hb, h1, h2⟩

/-- The outer loop over the first `r` rows of a sprite that lies inside memory:
it returns, and has inverted exactly the pixels of the set sprite bits. -/
theorem draw_rows_toggled (x y : Nat) (s : State) (hx : x ≠ 0xF) (hy : y ≠ 0xF)
    (r : Nat) (hr : r ≤ 32) (hI : s.I + r ≤ MEMORY_SIZE) :
    ∃ t, (List.range r).foldlM (draw_row x y) s = .ok t ∧
      Toggled (fun px py => ∃ row, row < r ∧ ∃ col, col < 8 ∧
          s.memory (s.I + row) &&& (0x80 >>> col) ≠ 0 ∧
          px = (s.V x + col) % 64 ∧ py = (s.V y + row) % 32) s t := by
  induction r with
  | zero =>
    exact ⟨s, rfl, (Toggled.rfl_empty s).congr (fun px py => by simp)⟩
  | succ r ih =>
    obtain ⟨t, ht, hT⟩ := ih (by omega) (by omega)
    have hin : t.I + r < MEMORY_SIZE := by rw [hT.I_eq]; omega
    have step := draw_cols_toggled x y r (t.memory (t.I + r)) t hx hy 8 (le_refl 8)
    refine ⟨(List.range 8).foldl (draw_pixel x y r (t.memory (t.I + r))) t, ?_, ?_⟩
    · rw [List.range_succ, List.foldlM_append, ht]
      simp [draw_row, read_memory, hin, bind, Except.bind, pure, Except.pure]
    · have step2 : Toggled (fun px py => ∃ col, col < 8 ∧
            s.memory (s.I + r) &&& (0x80 >>> col) ≠ 0 ∧
            px = (s.V x + col) % 64 ∧ py = (s.V y + r) % 32) t
          ((List.range 8).foldl (draw_pixel x y r (t.memory (t.I + r))) t) :=
        step.congr (fun px py => by rw [hT.regs x hx, hT.regs y hy, hT.memory_eq, hT.I_eq])
      refine (hT.trans step2 ?_).congr ?_
      · rintro px py ⟨row, hrow, col, -, -, -, hpy⟩ ⟨col2, -, -, -, hpy2⟩
        omega
      · intro px py
        constructor
        · rintro (⟨row, hrow, h⟩ | h)
          · exact ⟨row, by omega, h⟩
          · exact ⟨r, by omega, h⟩
        · rintro ⟨row, hrow, h⟩
          by_cases e : row = r
          · subst e
            exact Or.inr h
          · exact Or.inl ⟨row, by omega, h⟩

/-- A word of group D is executed by `draw_sprite`. -/
theorem dispatch_draw (rnd : Nat) (s : State) (h : s.opcode / 4096 % 16 = 13) :
    dispatch rnd s
      = draw_sprite (s.opcode / 256 % 16) (s.opcode / 16 % 16) (s.opcode % 16) s := by
  unfold dispatch
  simp only [decode_group, decode_x, decode_y, decode_n, h]
  simp

/-- The draw instruction `Dxyn` with `x`, `y` different from `0xF` and the sprite
inside memory: the step returns a state that comes from the state after the
fetch, with `V[0xF]` cleared, by inverting exactly the sprite's pixels. -/
theorem draw_step_toggled (rnd : Nat) (s : State) (x y n : Nat)
    (hx : x < 15) (hy : y < 15) (hn : n < 16) (hI : s.I + n ≤ MEMORY_SIZE)
    (hpc : s.pc + 2 < MEMORY_SIZE)
    (hhi : s.memory s.pc = 0xD0 + x) (hlo : s.memory (s.pc + 1) = 16 * y + n) :
    ∃ s', start_emulator rnd s = .ok s' ∧
      Toggled (sprite_pixels s.memory s.I (s.V x) (s.V y) n)
        { s with pc := s.pc + 2, opcode := 256 * (0xD0 + x) + (16 * y + n),
                 V := store s.V 0xF 0 } s' := by
  have e1 : (256 * (0xD0 + x) + (16 * y + n)) / 256 % 16 = x := by omega
  have e2 : (256 * (0xD0 + x) + (16 * y + n)) / 16 % 16 = y := by omega
  have e3 : (256 * (0xD0 + x) + (16 * y + n)) % 16 = n := by omega
  have hxF : x ≠ 0xF := by omega
  have hyF : y ≠ 0xF := by omega
  rw [start_emulator_fetch rnd s _ _ hpc hhi hlo (by omega) (by omega),
    dispatch_draw _ _ (by simp only []; omega)]
  simp only [e1, e2, e3, draw_sprite]
  obtain ⟨t, ht, hT⟩ := draw_rows_toggled x y
    { s with pc := s.pc + 2, opcode := 256 * (0xD0 + x) + (16 * y + n),
             V := store s.V 0xF 0 } hxF hyF n (by omega) hI
  refine ⟨t, ht, hT.congr ?_⟩
  intro px py
  have vx : store s.V 0xF 0 x = s.V x := by simp [store, hxF]
  have vy : store s.V 0xF 0 y = s.V y := by simp [store, hyF]
  simp only [vx, vy, sprite_pixels]
  constructor
  · rintro ⟨row, hrow, col, hcol, hb, h1, h2⟩
    exact ⟨row, col, hrow, hcol, (sprite_bit_test _ _ hcol).mp hb, h1, h2⟩
  · rintro ⟨row, col, hrow, hcol, hb, h1, h2⟩
    exact ⟨row, hrow, col, hcol, (sprite_bit_test _ _ hcol).mpr hb, h1, h2⟩

theorem store_store (a : Nat → Nat) (i v w : Nat) : store (store a i v) i w = store a i w := by
  funext j
  simp only [store]
  split <;> rfl

/-- C4: the draw instruction `Dxyn` with `x`, `y` different from `0xF`, height
`n` in 0..15 and `I + n <= 4096`: the step returns, every pixel
`((Vx + col) mod 64, (Vy + row) mod 32)` with `row < n`, `col < 8` and bit
`7 - col` of `memory[I + row]` set is inverted, and every other pixel is
unchanged; coordinates wrap around both edges. -/
theorem draw_inverts_exactly_sprite_pixels (rnd : Nat) (s : State) (x y n : Nat)
    (hx : x < 15) (hy : y < 15) (hn : n < 16) (hI : s.I + n ≤ 4096)
    (hpc : s.pc + 2 < MEMORY_SIZE)
    (hhi : s.memory s.pc = 0xD0 + x) (hlo : s.memory (s.pc + 1) = 16 * y + n) :
    ∃ s', start_emulator rnd s = .ok s' ∧
      ∀ px py,
        ((∃ row col, row < n ∧ col < 8 ∧ (s.memory (s.I + row)).testBit (7 - col) = true ∧
            px = (s.V x + col) % 64 ∧ py = (s.V y + row) % 32) →
          s'.display px py = !s.display px py) ∧
        ((¬ ∃ row col, row < n ∧ col < 8 ∧ (s.memory (s.I + row)).testBit (7 - col) = true ∧
            px = (s.V x + col) % 64 ∧ py = (s.V y + row) % 32) →
          s'.display px py = s.display px py) := by
  obtain ⟨s', hs, hT⟩ := draw_step_toggled rnd s x y n hx hy hn hI hpc hhi hlo
  exact ⟨s', hs, fun px py => ⟨fun h => hT.inverted px py h, fun h => hT.kept px py h⟩⟩

/-- An instance of C4 that wraps around both edges: two full rows drawn at
`(62, 31)` set `(62, 31)`, `(63, 31)`, `(0, 31)`, `(5, 0)`, and leave `(6, 0)`
clear and the unrelated set pixel `(10, 10)` set. -/
theorem draw_inverts_exactly_sprite_pixels_wraps :
    ∃ s', start_emulator 0 wrap_scenario = .ok s' ∧
      s'.display 62 31 = true ∧ s'.display 63 31 = true ∧ s'.display 0 31 = true ∧
      s'.display 5 0 = true ∧ s'.display 6 0 = false ∧ s'.display 10 10 = true := by
  obtain ⟨s', hs, h⟩ :=
    draw_inverts_exactly_sprite_pixels 0 wrap_scenario 0 1 2 (by decide) (by decide)
      (by decide) (by decide) (by decide) (by decide) (by decide)
  refine ⟨s', hs, ?_, ?_, ?_, ?_, ?_, ?_⟩
  · exact (h 62 31).1 ⟨0, 0, by decide, by decide, by decide, by decide, by decide⟩
  · exact (h 63 31).1 ⟨0, 1, by decide, by decide, by decide, by decide, by decide⟩
  · exact (h 0 31).1 ⟨0, 2, by decide, by decide, by decide, by decide, by decide⟩
  · exact (h 5 0).1 ⟨1, 7, by decide, by decide, by decide, by decide, by decide⟩
  · refine (h 6 0).2 ?_
    rintro ⟨row, col, -, hc, -, h1, -⟩
    have e : wrap_scenario.V 0 = 62 := by decide
    rw [e] at h1
    omega
  · refine (h 10 10).2 ?_
    rintro ⟨row, col, -, hc, -, h1, -⟩
    have e : wrap_scenario.V 0 = 62 := by decide
    rw [e] at h1
    omega

/-- C5: the draw instruction `Dxyn` with `x`, `y` different from `0xF` and
`I + n <= 4096`: the step returns, `VF` is 1 when some pixel of the 64 x 32
display that was set before the step is unset after it and 0 otherwise, and the
step gives the same state whatever value `VF` held before it. -/
theorem draw_collision_flag (rnd : Nat) (s : State) (x y n : Nat)
    (hx : x < 15) (hy : y < 15) (hn : n < 16) (hI : s.I + n ≤ 4096)
    (hpc : s.pc + 2 < MEMORY_SIZE)
    (hhi : s.memory s.pc = 0xD0 + x) (hlo : s.memory (s.pc + 1) = 16 * y + n) :
    ∃ s', start_emulator rnd s = .ok s' ∧
      (s'.V 0xF = 1 ↔ ∃ px py, px < 64 ∧ py < 32 ∧
        s.display px py = true ∧ s'.display px py = false) ∧
      (s'.V 0xF = 0 ↔ ¬ ∃ px py, px < 64 ∧ py < 32 ∧
        s.display px py = true ∧ s'.display px py = false) ∧
      ∀ v, start_emulator rnd { s with V := store s.V 0xF v } = .ok s' := by
  obtain ⟨s', hs, hT⟩ := draw_step_toggled rnd s x y n hx hy hn hI hpc hhi hlo
  have key : (∃ px py, px < 64 ∧ py < 32 ∧ s.display px py = true ∧ s'.display px py = false)
      ↔ ∃ px py, sprite_pixels s.memory s.I (s.V x) (s.V y) n px py ∧ s.display px py = true := by
    constructor
    · rintro ⟨px, py, -, -, h1, h2⟩
      refine ⟨px, py, ?_, h1⟩
      by_contra hT2
      have := hT.kept px py hT2
      simp only [] at this
      rw [h1, h2] at this
      exact absurd this (by decide)
    · rintro ⟨px, py, hp, h1⟩
      have h2 := hT.inverted px py hp
      simp only [] at h2
      rw [h1] at h2
      obtain ⟨row, col, -, -, -, e1, e2⟩ := hp
      exact ⟨px, py, by omega, by omega, h1, by simpa using h2⟩
  have one_or_zero : (∃ px py, sprite_pixels s.memory s.I (s.V x) (s.V y) n px py ∧
      s.display px py = true) → s'.V 0xF = 1 := fun h => hT.hit h
  have zero : (¬ ∃ px py, sprite_pixels s.memory s.I (s.V x) (s.V y) n px py ∧
      s.display px py = true) → s'.V 0xF = 0 := by
    intro h
    have := hT.miss h
    simpa [store] using this
  refine ⟨s', hs, ?_, ?_, ?_⟩
  · rw [key]
    constructor
    · intro h1
      by_contra hne
      rw [zero hne] at h1
      exact absurd h1 (by decide)
    · exact one_or_zero
  · rw [key]
    constructor
    · intro h0 hex
      rw [one_or_zero hex] at h0
      exact absurd h0 (by decide)
    · exact zero
  · intro v
    rw [← hs, start_emulator_fetch rnd s _ _ hpc hhi hlo (by omega) (by omega),
      start_emulator_fetch rnd { s with V := store s.V 0xF v } _ _ hpc hhi hlo (by omega)
        (by omega),
      dispatch_draw _ _ (by simp only []; omega), dispatch_draw _ _ (by simp only []; omega)]
    simp only [draw_sprite, store_store]

/-- An instance of C5: a draw over the set pixel `(0, 0)` entered with the stale
flag `VF = 7` ends with `VF = 1` and the pixel unset. -/
theorem draw_collision_flag_scenario :
    ∃ s', start_emulator 0 collision_scenario = .ok s' ∧ s'.V 0xF = 1 ∧
      s'.display 0 0 = false := by
  obtain ⟨s', hs, h1, -, -⟩ :=
    draw_collision_flag 0 collision_scenario 0 0 1 (by decide) (by decide)
      (by decide) (by decide) (by decide) (by decide) (by decide)
  have e : start_emulator 0 collision_scenario = .ok s' := hs
  have hd : s'.display 0 0 = false := by
    have : (start_emulator 0 collision_scenario).toOption.map (fun t => t.display 0 0)
        = some false := by decide
    rw [e] at this
    simpa [Except.toOption] using this
  exact ⟨s', hs, h1.mpr ⟨0, 0, by decide, by decide, by decide, hd⟩, hd⟩

/-! ## Waiting for a key -/

/-- A word of group F is executed by `misc`. -/
theorem dispatch_misc (rnd : Nat) (s : State) (h : s.opcode / 4096 % 16 = 15) :
    dispatch rnd s = misc s.opcode (s.opcode / 256 % 16) s := by
  unfold dispatch
  simp only [decode_group, decode_x, h]
  simp

/-- The scan ends without a break exactly when every visited latch is clear. -/
theorem key_scan_none (keypad : Nat → Nat) (fuel i : Nat) :
    key_scan keypad i fuel = none ↔ ∀ j, i ≤ j → j < i + fuel → keypad j = 0 := by
  induction fuel generalizing i with
  | zero =>
    simp only [key_scan, true_iff]
    intro j h1 h2
    omega
  | succ fuel ih =>
    simp only [key_scan]
    by_cases hk : keypad i = 0
    · simp only [hk, ne_eq, not_true_eq_false, if_false, ih]
      constructor
      · intro h j h1 h2
        by_cases e : j = i
        · rw [e]; exact hk
        · exact h j (by omega) (by omega)
      · intro h j h1 h2
        exact h j (by omega) (by omega)
    · simp only [ne_eq, hk, not_false_eq_true, if_true]
      constructor
      · intro h
        exact absurd h (by simp)
      · intro h
        exact absurd (h i (le_refl i) (by omega)) hk

/-- The scan breaks at the first set latch. -/
theorem key_scan_some (keypad : Nat → Nat) (fuel i m : Nat)
    (h : key_scan keypad i fuel = some m) :
    i ≤ m ∧ m < i + fuel ∧ keypad m ≠ 0 ∧ ∀ j, i ≤ j → j < m → keypad j = 0 := by
  induction fuel generalizing i with
  | zero => simp [key_scan] at h
  | succ fuel ih =>
    simp only [key_scan] at h
    by_cases hk : keypad i = 0
    · simp only [hk, ne_eq, not_true_eq_false, if_false] at h
      obtain ⟨h1, h2, h3, h4⟩ := ih (i + 1) h
      refine ⟨by omega, by omega, h3, ?_⟩
      intro j hj1 hj2
      by_cases e : j = i
      · rw [e]; exact hk
      · exact h4 j (by omega) hj2
    · simp only [ne_eq, hk, not_false_eq_true, if_true, Option.some.injEq] at h
      subst h
      exact ⟨le_refl _, by omega, hk, fun j h1 h2 => by omega⟩

/-- C6: block-until-key-press `Fx0A`, fetched inside memory: the step returns;
when no latch 0..15 is set the program counter is the one before the step and
`V` and `I` are unchanged; when some latch is set, `Vx` is the smallest index
whose latch is set and the program counter is the old one plus 2. -/
theorem wait_for_key_step (rnd : Nat) (s : State) (x : Nat) (hx : x < 16)
    (hpc : s.pc + 2 < MEMORY_SIZE)
    (hhi : s.memory s.pc = 0xF0 + x) (hlo : s.memory (s.pc + 1) = 0x0A) :
    ∃ s', start_emulator rnd s = .ok s' ∧
      ((∀ i, i < 16 → s.keypad i = 0) → s'.pc = s.pc ∧ s'.V = s.V ∧ s'.I = s.I) ∧
      ((∃ i, i < 16 ∧ s.keypad i ≠ 0) →
        s'.pc = s.pc + 2 ∧ s'.V x < 16 ∧ s.keypad (s'.V x) ≠ 0 ∧
        ∀ i, i < s'.V x → s.keypad i = 0) := by
  have e1 : (256 * (0xF0 + x) + 0x0A) / 256 % 16 = x := by omega
  have e2 : (256 * (0xF0 + x) + 0x0A) % 256 = 0x0A := by omega
  rw [start_emulator_fetch rnd s _ _ hpc hhi hlo (by omega) (by omega),
    dispatch_misc _ _ (by simp only []; omega)]
  simp only [misc, decode_nn, e1, e2]
  cases hk : key_scan s.keypad 0 NUM_KEYS with
  | none =>
    have hz := (key_scan_none s.keypad NUM_KEYS 0).mp hk
    refine ⟨_, by simp; rfl, ?_, ?_⟩
    · intro _
      refine ⟨?_, rfl, rfl⟩
      simp only [to_u16]
      unfold MEMORY_SIZE at hpc
      omega
    · rintro ⟨i, hi, hne⟩
      exact absurd (hz i (Nat.zero_le i) (by unfold NUM_KEYS; omega)) hne
  | some m =>
    obtain ⟨-, h2, h3, h4⟩ := key_scan_some s.keypad NUM_KEYS 0 m hk
    unfold NUM_KEYS at h2
    refine ⟨_, by simp; rfl, ?_, ?_⟩
    · intro hall
      exact absurd (hall m (by omega)) h3
    · intro _
      have hv : store s.V x m x = m := by simp [store]
      simp only [hv]
      exact ⟨trivial, by omega, h3, fun i hi => h4 i (Nat.zero_le i) hi⟩

/-- An instance of C6: with keys 3 and 7 held, `F50A` stores 3 in `V5` and
moves on to `0x202`. -/
theorem wait_for_key_step_scenario :
    ∃ s', start_emulator 0 key_scenario = .ok s' ∧ s'.pc = 0x202 ∧ s'.V 5 = 3 := by
  obtain ⟨s', hs, -, h⟩ :=
    wait_for_key_step 0 key_scenario 5 (by decide) (by decide) (by decide) (by decide)
  obtain ⟨h1, h2, h3, h4⟩ := h ⟨3, by decide, by decide⟩
  refine ⟨s', hs, h1, ?_⟩
  have lo : ¬ s'.V 5 < 3 := by
    intro hlt
    have : s'.V 5 = 0 ∨ s'.V 5 = 1 ∨ s'.V 5 = 2 := by omega
    rcases this with e | e | e <;> rw [e] at h3 <;> exact h3 (by decide)
  have hi : ¬ 3 < s'.V 5 := fun hgt => absurd (h4 3 hgt) (by decide)
  omega

/-! ## Subroutine call and return -/

/-- A word of group 2 pushes and jumps while the stack has room. -/
theorem dispatch_call (rnd : Nat) (s : State) (h : s.opcode / 4096 % 16 = 2) :
    dispatch rnd s
      = if s.sp < STACK_SIZE then
          .ok { push_stack s s.pc with pc := s.opcode % 4096 }
        else .ok s := by
  unfold dispatch
  simp only [decode_group, decode_nnn, h]
  simp
  rfl

/-- The word `0x00EE` pops the stack into `pc` when the stack is not empty. -/
theorem dispatch_return (rnd : Nat) (s : State) (h : s.opcode = 0x00EE) :
    dispatch rnd s
      = if s.sp > 0 then .ok { (pop_stack s).2 with pc := (pop_stack s).1 } else .ok s := by
  unfold dispatch
  simp only [decode_group, decode_nn, h]
  simp
  rfl

/-- C7: call/return round trip, with `push_stack`/`pop_stack` as a LIFO stack:
from a state with fewer than 16 stack entries, a call `2nnn` to `A` fetched at
`P` followed by the return `00EE` fetched at `A` both return, the call lands on
`A`, and after the return `pc = P + 2`, the stack pointer is the one before the
call and the stack entries below it are unchanged. -/
theorem call_return_round_trip (rnd1 rnd2 : Nat) (s : State) (A : Nat)
    (hsp : s.sp < 16) (hA : A + 2 < MEMORY_SIZE) (hpc : s.pc + 2 < MEMORY_SIZE)
    (hhi : s.memory s.pc = 0x20 + A / 256) (hlo : s.memory (s.pc + 1) = A % 256)
    (rhi : s.memory A = 0x00) (rlo : s.memory (A + 1) = 0xEE) :
    ∃ s1 s2, start_emulator rnd1 s = .ok s1 ∧ start_emulator rnd2 s1 = .ok s2 ∧
      s1.pc = A ∧ s2.pc = s.pc + 2 ∧ s2.sp = s.sp ∧
      ∀ i, i < s.sp → s2.stack i = s.stack i := by
  have hA2 : A + 2 < 4096 := hA
  have e1 : (256 * (0x20 + A / 256) + A % 256) % 4096 = A := by omega
  have hlt : s.sp < STACK_SIZE := hsp
  have h1 : start_emulator rnd1 s
      = .ok { s with pc := A, opcode := 256 * (0x20 + A / 256) + A % 256,
                     stack := store s.stack s.sp (s.pc + 2), sp := s.sp + 1 } := by
    rw [start_emulator_fetch rnd1 s _ _ hpc hhi hlo (by omega) (by omega),
      dispatch_call _ _ (by simp only []; omega)]
    simp only [hlt, if_true, e1, push_stack]
  have h2 : start_emulator rnd2
        { s with pc := A, opcode := 256 * (0x20 + A / 256) + A % 256,
                 stack := store s.stack s.sp (s.pc + 2), sp := s.sp + 1 }
      = .ok { s with pc := s.pc + 2, opcode := 0x00EE,
                     stack := store s.stack s.sp (s.pc + 2), sp := s.sp } := by
    rw [start_emulator_fetch rnd2 _ 0x00 0xEE hA rhi rlo (by omega) (by omega),
      dispatch_return _ _ rfl]
    simp [pop_stack, store]
  refine ⟨_, _, h1, h2, rfl, rfl, rfl, ?_⟩
  intro i hi
  have : i ≠ s.sp := by omega
  simp [store, this]

/-- An instance of C7: the call `2300` at `0x200` and the return at `0x300`
come back to `0x202` with the two stack entries as before. -/
theorem call_return_round_trip_scenario :
    ∃ s1 s2, start_emulator 0 call_scenario = .ok s1 ∧ start_emulator 0 s1 = .ok s2 ∧
      s1.pc = 0x300 ∧ s2.pc = 0x202 ∧ s2.sp = 2 ∧
      s2.stack 0 = 0x111 ∧ s2.stack 1 = 0x222 := by
  obtain ⟨s1, s2, h1, h2, p1, p2, hsp, hst⟩ :=
    call_return_round_trip 0 0 call_scenario 0x300 (by decide) (by decide) (by decide)
      (by decide) (by decide) (by decide) (by decide)
  exact ⟨s1, s2, h1, h2, p1, p2, hsp, hst 0 (by decide), hst 1 (by decide)⟩

/-- C9: a call `2nnn` fetched on a full stack (`sp = 16`) is not taken: the
step returns the state after the fetch, with `pc` at the instruction following
the call and the stack pointer, stack, registers, memory, display and every
other part of the state unchanged. -/
theorem call_on_full_stack (rnd : Nat) (s : State) (nnn : Nat) (hnnn : nnn < 4096)
    (hsp : s.sp = 16) (hpc : s.pc + 2 < MEMORY_SIZE)
    (hhi : s.memory s.pc = 0x20 + nnn / 256) (hlo : s.memory (s.pc + 1) = nnn % 256) :
    start_emulator rnd s
      = .ok { s with pc := s.pc + 2, opcode := 256 * (0x20 + nnn / 256) + nnn % 256 } := by
  have hge : ¬ (s.sp < STACK_SIZE) := by unfold STACK_SIZE; omega
  rw [start_emulator_fetch rnd s _ _ hpc hhi hlo (by omega) (by omega),
    dispatch_call _ _ (by simp only []; omega)]
  simp only [hge, if_false]

/-- An instance of C9: the call `2300` at `0x200` on a full stack leaves
`pc = 0x202`, `sp = 16` and the top entry as it was. -/
theorem call_on_full_stack_scenario :
    ∃ s', start_emulator 0 full_stack_scenario = .ok s' ∧ s'.pc = 0x202 ∧ s'.sp = 16 ∧
      s'.stack = full_stack_scenario.stack ∧ s'.V = full_stack_scenario.V ∧
      s'.memory = full_stack_scenario.memory ∧ s'.display = full_stack_scenario.display :=
  ⟨_, call_on_full_stack 0 full_stack_scenario 0x300 (by decide) (by decide) (by decide)
    (by decide) (by decide), rfl, rfl, rfl, rfl, rfl, rfl⟩

/-! ## Clearing the display -/

/-- The inner loop of `clear_display` over the first `c` columns of row `y`. -/
theorem clear_cols (y c : Nat) (s : State) :
    (List.range c).foldl (fun s x => { s with display := store2 s.display x y false }) s
      = { s with display := fun i j => if i < c ∧ j = y then false else s.display i j } := by
  induction c with
  | zero => simp
  | succ c ih =>
    rw [List.range_succ, List.foldl_append, ih, List.foldl_cons, List.foldl_nil]
    congr 1
    funext i j
    simp only [store2]
    split_ifs <;> first | rfl | (exfalso; omega)

/-- The outer loop of `clear_display` over the first `r` rows. -/
theorem clear_rows (r : Nat) (s : State) :
    (List.range r).foldl
        (fun s y => (List.range DISPLAY_WIDTH).foldl
          (fun s x => { s with display := store2 s.display x y false }) s) s
      = { s with display :=
            fun i j => if i < DISPLAY_WIDTH ∧ j < r then false else s.display i j } := by
  induction r with
  | zero => simp
  | succ r ih =>
    rw [List.range_succ, List.foldl_append, ih, List.foldl_cons, List.foldl_nil, clear_cols]
    congr 1
    funext i j
    simp only []
    split_ifs <;> first | rfl | (exfalso; omega)

/-- The word `0x00E0` is executed by `clear_display`. -/
theorem dispatch_clear (rnd : Nat) (s : State) (h : s.opcode = 0x00E0) :
    dispatch rnd s = .ok (clear_display s) := by
  unfold dispatch
  simp only [decode_group, decode_nn, h]
  simp
  rfl

/-- C10: clear display `00E0`, fetched inside memory: the step returns, every
pixel of the 64 x 32 display is `false`, and the registers `V0..VF`, `I`, the
stack pointer and stack, both timers, the keypad latches and memory are
unchanged. -/
theorem clear_display_step (rnd : Nat) (s : State) (hpc : s.pc + 2 < MEMORY_SIZE)
    (hhi : s.memory s.pc = 0x00) (hlo : s.memory (s.pc + 1) = 0xE0) :
    ∃ s', start_emulator rnd s = .ok s' ∧
      (∀ px py, px < 64 → py < 32 → s'.display px py = false) ∧
      s'.V = s.V ∧ s'.I = s.I ∧ s'.sp = s.sp ∧ s'.stack = s.stack ∧
      s'.delay = s.delay ∧ s'.sound = s.sound ∧ s'.keypad = s.keypad ∧
      s'.memory = s.memory := by
  rw [start_emulator_fetch rnd s _ _ hpc hhi hlo (by omega) (by omega),
    dispatch_clear _ _ rfl]
  refine ⟨_, rfl, ?_, ?_⟩
  · intro px py hx hy
    have h1 : px < DISPLAY_WIDTH := hx
    have h2 : py < DISPLAY_HEIGHT := hy
    simp [clear_display, clear_rows, h1, h2]
  · simp [clear_display, clear_rows]

/-- An instance of C10: clearing a display with the diagonal set, entered with
`VF = 1`, leaves `(3, 3)` clear and `VF = 1`. -/
theorem clear_display_step_scenario :
    ∃ s', start_emulator 0 clear_scenario = .ok s' ∧ clear_scenario.display 3 3 = true ∧
      s'.display 3 3 = false ∧ s'.V 0xF = 1 := by
  obtain ⟨s', hs, hd, hV, -⟩ :=
    clear_display_step 0 clear_scenario (by decide) (by decide) (by decide)
  refine ⟨s', hs, by decide, hd 3 3 (by decide) (by decide), ?_⟩
  rw [hV]
  decide

/-! ## Register dump and load -/

/-- The dump loop over the first `c` registers, inside memory. -/
theorem dump_loop (c : Nat) (s : State) (h : s.I + c ≤ MEMORY_SIZE) :
    (List.range c).foldlM (fun s i => write_memory s (s.I + i) (s.V i)) s
      = .ok { s with memory :=
                fun a => if s.I ≤ a ∧ a < s.I + c then s.V (a - s.I) else s.memory a } := by
  induction c with
  | zero =>
    have e : (fun a => if s.I ≤ a ∧ a < s.I + 0 then s.V (a - s.I) else s.memory a)
        = s.memory := by
      funext a
      split_ifs <;> first | rfl | (exfalso; omega)
    rw [e]
    rfl
  | succ c ih =>
    have hin : s.I + c < MEMORY_SIZE := by omega
    rw [List.range_succ, List.foldlM_append, ih (by omega)]
    simp only [bind, Except.bind, List.foldlM_cons, List.foldlM_nil, write_memory, hin, if_true,
      pure, Except.pure]
    congr 2
    funext a
    simp only [store]
    by_cases h1 : a = s.I + c
    · subst h1
      simp
    · split_ifs <;> first | rfl | (exfalso; omega)

/-- The load loop over the first `c` registers, inside memory. -/
theorem load_loop (c : Nat) (s : State) (h : s.I + c ≤ MEMORY_SIZE) :
    (List.range c).foldlM
        (fun s i => do
          let v ← read_memory s (s.I + i)
          pure { s with V := store s.V i v }) s
      = .ok { s with V := fun i => if i < c then s.memory (s.I + i) else s.V i } := by
  induction c with
  | zero => simp [pure, Except.pure]
  | succ c ih =>
    have hin : s.I + c < MEMORY_SIZE := by omega
    rw [List.range_succ, List.foldlM_append, ih (by omega)]
    simp only [bind, Except.bind, List.foldlM_cons, List.foldlM_nil, read_memory, hin, if_true,
      pure, Except.pure]
    congr 2
    funext i
    simp only [store]
    by_cases h1 : i = c
    · subst h1
      simp
    · split_ifs <;> first | rfl | (exfalso; omega)

/-- The dump instruction `Fx55` with `I + x < 4096`: the step returns the state
after the fetch with `V[i]` stored at `memory[I + i]` for `i` in `0..x`. -/
theorem dump_step (rnd : Nat) (s : State) (x : Nat) (hx : x < 16) (hI : s.I + x < 4096)
    (hpc : s.pc + 2 < MEMORY_SIZE)
    (hhi : s.memory s.pc = 0xF0 + x) (hlo : s.memory (s.pc + 1) = 0x55) :
    start_emulator rnd s
      = .ok { s with pc := s.pc + 2, opcode := 256 * (0xF0 + x) + 0x55,
                     memory := fun a =>
                       if s.I ≤ a ∧ a < s.I + (x + 1) then s.V (a - s.I) else s.memory a } := by
  have e1 : (256 * (0xF0 + x) + 0x55) / 256 % 16 = x := by omega
  have e2 : (256 * (0xF0 + x) + 0x55) % 256 = 0x55 := by omega
  rw [start_emulator_fetch rnd s _ _ hpc hhi hlo (by omega) (by omega),
    dispatch_misc _ _ (by simp only []; omega)]
  simp only [misc, decode_nn, e1, e2]
  simp only [Nat.reduceEqDiff, if_false, if_true, dump_registers]
  rw [dump_loop (x + 1) _ (by simp only [MEMORY_SIZE]; omega)]

/-- The load instruction `Fx65` with `I + x < 4096`: the step returns the state
after the fetch with `V[i]` read from `memory[I + i]` for `i` in `0..x`. -/
theorem load_step (rnd : Nat) (s : State) (x : Nat) (hx : x < 16) (hI : s.I + x < 4096)
    (hpc : s.pc + 2 < MEMORY_SIZE)
    (hhi : s.memory s.pc = 0xF0 + x) (hlo : s.memory (s.pc + 1) = 0x65) :
    start_emulator rnd s
      = .ok { s with pc := s.pc + 2, opcode := 256 * (0xF0 + x) + 0x65,
                     V := fun i => if i < x + 1 then s.memory (s.I + i) else s.V i } := by
  have e1 : (256 * (0xF0 + x) + 0x65) / 256 % 16 = x := by omega
  have e2 : (256 * (0xF0 + x) + 0x65) % 256 = 0x65 := by omega
  rw [start_emulator_fetch rnd s _ _ hpc hhi hlo (by omega) (by omega),
    dispatch_misc _ _ (by simp only []; omega)]
  simp only [misc, decode_nn, e1, e2]
  simp only [Nat.reduceEqDiff, if_false, if_true, load_registers]
  rw [load_loop (x + 1) _ (by simp only [MEMORY_SIZE]; omega)]

/-- C8: register dump/load round trip.  For `x` in 0..15 and `I + x < 4096` the
dump `Fx55` returns a state `s1` with `pc` advanced by 2 and `I` unchanged, and
from every state `s2` that has the memory and `I` of `s1` (whatever its
registers) and in which the load `Fx65` with the same `x` is fetched, the load
returns a state whose `V0..Vx` are the values dumped and whose registers above
`x` are those of `s2`. -/
theorem dump_load_round_trip (rnd1 rnd2 : Nat) (s : State) (x : Nat)
    (hx : x < 16) (hI : s.I + x < 4096) (hpc : s.pc + 2 < MEMORY_SIZE)
    (hhi : s.memory s.pc = 0xF0 + x) (hlo : s.memory (s.pc + 1) = 0x55) :
    ∃ s1, start_emulator rnd1 s = .ok s1 ∧ s1.pc = s.pc + 2 ∧ s1.I = s.I ∧
      (∀ a, (a < s.I ∨ s.I + x < a) → s1.memory a = s.memory a) ∧
      ∀ s2 : State, s2.memory = s1.memory → s2.I = s1.I → s2.pc + 2 < MEMORY_SIZE →
        s2.memory s2.pc = 0xF0 + x → s2.memory (s2.pc + 1) = 0x65 →
        ∃ s3, start_emulator rnd2 s2 = .ok s3 ∧
          (∀ i, i ≤ x → s3.V i = s.V i) ∧ (∀ i, x < i → s3.V i = s2.V i) := by
  refine ⟨_, dump_step rnd1 s x hx hI hpc hhi hlo, rfl, rfl, ?_, ?_⟩
  · intro a ha
    have : ¬ (s.I ≤ a ∧ a < s.I + (x + 1)) := by omega
    simp only [this, if_false]
  · intro s2 hm hi2 hpc2 hhi2 hlo2
    have hI2 : s2.I + x < 4096 := by rw [hi2]; exact hI
    refine ⟨_, load_step rnd2 s2 x hx hI2 hpc2 hhi2 hlo2, ?_, ?_⟩
    · intro i hi
      have h1 : i < x + 1 := by omega
      have h2 : s.I ≤ s.I + i ∧ s.I + i < s.I + (x + 1) := by omega
      simp only [h1, if_true, hm, hi2, h2, Nat.add_sub_cancel_left, and_self]
    · intro i hi
      have h1 : ¬ i < x + 1 := by omega
      simp only [h1, if_false]

/-- An instance of C8: `V0 = 11`, `V1 = 22` dumped with `F155` to `0x300`, the
two registers zeroed, then loaded back with `F165` fetched at `0x202`. -/
theorem dump_load_round_trip_scenario :
    ∃ s1 s3, start_emulator 0 dump_scenario = .ok s1 ∧
      start_emulator 0 { s1 with V := fun _ => 0 } = .ok s3 ∧
      s3.V 0 = 11 ∧ s3.V 1 = 22 ∧ s3.V 2 = 0 := by
  obtain ⟨s1, h1, hp, hi, hm, h⟩ :=
    dump_load_round_trip 0 0 dump_scenario 1 (by decide) (by decide) (by decide) (by decide)
      (by decide)
  have pc1 : s1.pc = 0x202 := hp
  have m2 : s1.memory 0x202 = 0xF1 := by rw [hm 0x202 (Or.inl (by decide))]; decide
  have m3 : s1.memory 0x203 = 0x65 := by rw [hm 0x203 (Or.inl (by decide))]; decide
  obtain ⟨s3, h3, hlow, hhigh⟩ := h { s1 with V := fun _ => 0 } rfl rfl
    (by simp only [pc1]; decide) (by simp only [pc1]; exact m2) (by simp only [pc1]; exact m3)
  exact ⟨s1, s3, h1, h3, hlow 0 (by decide), hlow 1 (by decide), hhigh 2 (by decide)⟩

/-! ## Fetch -/

/-- C11, as amended: with 8-bit memory cells and `PC + 2 < 4096`,
`get_op_code` advances `pc` by 2 and returns the big-endian word
`w = 256 * memory[PC] + memory[PC + 1]` converted to its return type `short`:
`w` itself when `w < 0x8000`, `w - 65536` otherwise, in both cases a value whose
low 16 bits are `w`.  It returns `0x0000` when `PC + 1 >= 4096`, leaving `pc` as
it was, and also when `PC = 4094`, both bytes inside memory, leaving
`pc = 4096`. -/
theorem get_op_code_cases (s : State)
    (hhi : s.memory s.pc < 256) (hlo : s.memory (s.pc + 1) < 256) :
    (s.pc + 2 < 4096 →
      (get_op_code s).2 = { s with pc := s.pc + 2 } ∧
      (256 * s.memory s.pc + s.memory (s.pc + 1) < 0x8000 →
        (get_op_code s).1 = ((256 * s.memory s.pc + s.memory (s.pc + 1) : Nat) : Int)) ∧
      (0x8000 ≤ 256 * s.memory s.pc + s.memory (s.pc + 1) →
        (get_op_code s).1
          = ((256 * s.memory s.pc + s.memory (s.pc + 1) : Nat) : Int) - 65536) ∧
      (get_op_code s).1 % 65536
        = ((256 * s.memory s.pc + s.memory (s.pc + 1) : Nat) : Int)) ∧
    (s.pc = 4094 → get_op_code s = (0x0000, { s with pc := 4096 })) ∧
    (s.pc + 1 ≥ 4096 → get_op_code s = (0x0000, s)) := by
  refine ⟨?_, ?_, ?_⟩
  · intro h
    rw [get_op_code_ok s h hhi hlo]
    refine ⟨rfl, ?_, ?_, ?_⟩
    · intro hw
      simp only [to_i16]
      omega
    · intro hw
      simp only [to_i16]
      omega
    · simp only [to_i16]
      omega
  · intro h
    simp [get_op_code, MEMORY_SIZE, h]
  · intro h
    have h1 : s.pc + 1 ≥ MEMORY_SIZE := h
    simp only [get_op_code, h1, if_true]

/-- An instance of C11 as amended: at `pc = 0x200` with bytes `A2 F0` the fetch
leaves `pc = 0x202` and returns `0xA2F0 - 65536 = -23824`, whose low 16 bits are
`0xA2F0`. -/
theorem get_op_code_cases_inside :
    (get_op_code fetch_inside).2.pc = 0x202 ∧ (get_op_code fetch_inside).1 = -23824 ∧
    (get_op_code fetch_inside).1 % 65536 = 0xA2F0 := by
  obtain ⟨h2, -, hneg, hmod⟩ :=
    (get_op_code_cases fetch_inside (by decide) (by decide)).1 (by decide)
  refine ⟨?_, ?_, ?_⟩
  · rw [h2]
    decide
  · rw [hneg (by decide)]
    decide
  · rw [hmod]
    decide

/-- C11 fails as stated, twice.  At `pc = 4094` neither `PC` nor `PC + 1` lies
outside memory and the bytes there are `12 34`, yet `get_op_code` returns
`0x0000`, not `0x1234`.  At `pc = 0x200` with bytes `A2 F0` the fetch succeeds,
yet the `short` returned is `-23824`, not `256 * 0xA2 + 0xF0 = 41712`. -/
theorem get_op_code_word_not_returned :
    (fetch_edge.pc + 1 < 4096 ∧
      256 * fetch_edge.memory fetch_edge.pc + fetch_edge.memory (fetch_edge.pc + 1) = 0x1234 ∧
      (get_op_code fetch_edge).1 = 0x0000) ∧
    (fetch_inside.pc + 1 < 4096 ∧
      256 * fetch_inside.memory fetch_inside.pc + fetch_inside.memory (fetch_inside.pc + 1)
        = 41712 ∧
      (get_op_code fetch_inside).1 = -23824) := by
  refine ⟨⟨by decide, by decide, by decide⟩, ⟨by decide, by decide, by decide⟩⟩

/-- The `short` 0 is stored as the word `0x0000`. -/
theorem to_u16_zero : to_u16 0 = 0 := rfl

/-- The word `0x0000` changes nothing. -/
theorem dispatch_zero (rnd : Nat) (s : State) (h : s.opcode = 0x0000) :
    dispatch rnd s = .ok s := by
  unfold dispatch
  simp only [decode_group, decode_nn, h]
  simp
  rfl

/-- C15, as amended: a failed fetch (`PC + 2 >= 4096`) makes the whole step a
no-op on registers, `I`, stack, timers, memory, display and keypad; the program
counter keeps its value when `PC + 1 >= 4096`, and is left at 4096, two past its
old value, when `PC = 4094`. -/
theorem failed_fetch_step (rnd : Nat) (s : State) (h : s.pc + 2 ≥ 4096) :
    start_emulator rnd s
      = .ok { s with opcode := 0x0000, pc := if s.pc = 4094 then 4096 else s.pc } := by
  unfold start_emulator
  by_cases h1 : s.pc + 1 ≥ 4096
  · have hne : ¬ s.pc = 4094 := by omega
    have hg : s.pc + 1 ≥ MEMORY_SIZE := h1
    simp only [get_op_code, hg, if_true, hne, if_false, to_u16_zero]
    rw [dispatch_zero _ _ rfl]
  · have he : s.pc = 4094 := by omega
    simp only [get_op_code, MEMORY_SIZE, he]
    simp only [Nat.reduceAdd, ge_iff_le, Nat.reduceLeDiff, if_false, Nat.reduceMod,
      le_refl, if_true, to_u16_zero]
    rw [dispatch_zero _ _ rfl]

/-- An instance of C15 as amended: at `pc = 4095` the step returns with
`pc = 4095` and `V3` as before. -/
theorem failed_fetch_step_outside :
    ∃ s', start_emulator 0 fetch_outside = .ok s' ∧ s'.pc = 4095 ∧ s'.V 3 = 9 :=
  ⟨_, failed_fetch_step 0 fetch_outside (by decide), by decide, by decide⟩

/-- C15 fails as stated: at `pc = 4094` the fetch fails, and the step leaves
`pc = 4096`, not the value 4094 it had before the cycle. -/
theorem failed_fetch_moves_pc :
    (get_op_code fetch_edge).1 = 0x0000 ∧
    ∃ s', start_emulator 0 fetch_edge = .ok s' ∧ fetch_edge.pc = 4094 ∧ s'.pc = 4096 :=
  ⟨by decide, _, rfl, by decide, by decide⟩

/-! ## Decimal digits -/

/-- The instruction `Fx33` with `I + 2 < 4096`: the step returns the state after
the fetch with the three digit stores done in order. -/
theorem bcd_step_eq (rnd : Nat) (s : State) (x : Nat) (hx : x < 16) (hI : s.I + 2 < 4096)
    (hpc : s.pc + 2 < MEMORY_SIZE)
    (hhi : s.memory s.pc = 0xF0 + x) (hlo : s.memory (s.pc + 1) = 0x33) :
    start_emulator rnd s
      = .ok { s with pc := s.pc + 2, opcode := 256 * (0xF0 + x) + 0x33,
                     memory := store (store (store s.memory s.I (s.V x / 100))
                       (s.I + 1) (s.V x / 10 % 10)) (s.I + 2) (s.V x % 10) } := by
  have e1 : (256 * (0xF0 + x) + 0x33) / 256 % 16 = x := by omega
  have e2 : (256 * (0xF0 + x) + 0x33) % 256 = 0x33 := by omega
  have i0 : s.I < MEMORY_SIZE := by simp only [MEMORY_SIZE]; omega
  have i1 : s.I + 1 < MEMORY_SIZE := by simp only [MEMORY_SIZE]; omega
  have i2 : s.I + 2 < MEMORY_SIZE := by simp only [MEMORY_SIZE]; omega
  rw [start_emulator_fetch rnd s _ _ hpc hhi hlo (by omega) (by omega),
    dispatch_misc _ _ (by simp only []; omega)]
  simp only [misc, decode_nn, e1, e2]
  simp only [Nat.reduceEqDiff, if_false, if_true, write_memory, i0, i1, i2, bind, Except.bind]

/-- C14: the instruction `Fx33` with an 8-bit `Vx` and `I + 2 < 4096`: the step
returns, `memory[I]`, `memory[I+1]`, `memory[I+2]` are each at most 9 and
`100 * memory[I] + 10 * memory[I+1] + memory[I+2] = Vx`, every other memory cell
is unchanged and so are `V0..VF` and `I`. -/
theorem bcd_store_step (rnd : Nat) (s : State) (x : Nat) (hx : x < 16)
    (hV : s.V x < 256) (hI : s.I + 2 < 4096) (hpc : s.pc + 2 < MEMORY_SIZE)
    (hhi : s.memory s.pc = 0xF0 + x) (hlo : s.memory (s.pc + 1) = 0x33) :
    ∃ s', start_emulator rnd s = .ok s' ∧
      s'.memory s.I ≤ 9 ∧ s'.memory (s.I + 1) ≤ 9 ∧ s'.memory (s.I + 2) ≤ 9 ∧
      100 * s'.memory s.I + 10 * s'.memory (s.I + 1) + s'.memory (s.I + 2) = s.V x ∧
      (∀ a, a ≠ s.I → a ≠ s.I + 1 → a ≠ s.I + 2 → s'.memory a = s.memory a) ∧
      s'.V = s.V ∧ s'.I = s.I := by
  refine ⟨_, bcd_step_eq rnd s x hx hI hpc hhi hlo, ?_⟩
  have m0 : store (store (store s.memory s.I (s.V x / 100)) (s.I + 1) (s.V x / 10 % 10))
      (s.I + 2) (s.V x % 10) s.I = s.V x / 100 := by simp [store]
  have m1 : store (store (store s.memory s.I (s.V x / 100)) (s.I + 1) (s.V x / 10 % 10))
      (s.I + 2) (s.V x % 10) (s.I + 1) = s.V x / 10 % 10 := by simp [store]
  have m2 : store (store (store s.memory s.I (s.V x / 100)) (s.I + 1) (s.V x / 10 % 10))
      (s.I + 2) (s.V x % 10) (s.I + 2) = s.V x % 10 := by simp [store]
  refine ⟨?_, ?_, ?_, ?_, ?_, rfl, rfl⟩
  · dsimp only
    rw [m0]
    omega
  · dsimp only
    rw [m1]
    omega
  · dsimp only
    rw [m2]
    omega
  · dsimp only
    rw [m0, m1, m2]
    omega
  · intro a h0 h1 h2
    simp [store, h0, h1, h2]

/-- An instance of C14: `V3 = 234` stored at `I = 0x300` gives the digits 2, 3, 4
and leaves `memory[0x303]` as it was. -/
theorem bcd_store_step_scenario :
    ∃ s', start_emulator 0 bcd_scenario = .ok s' ∧ s'.memory 0x300 = 2 ∧
      s'.memory 0x301 = 3 ∧ s'.memory 0x302 = 4 ∧ s'.memory 0x303 = 0 := by
  obtain ⟨s', hs, h0, h1, h2, hsum, hrest, -, -⟩ :=
    bcd_store_step 0 bcd_scenario 3 (by decide) (by decide) (by decide) (by decide)
      (by decide) (by decide)
  have eI : bcd_scenario.I = 0x300 := by decide
  have eV : bcd_scenario.V 3 = 234 := by decide
  rw [eI] at h0 h1 h2 hsum hrest
  rw [eV] at hsum
  simp only [Nat.reduceAdd] at h1 h2 hsum
  have r := hrest 0x303 (by decide) (by decide) (by decide)
  have e3 : bcd_scenario.memory 0x303 = 0 := by decide
  rw [e3] at r
  refine ⟨s', hs, ?_, ?_, ?_, r⟩ <;> omega

/-! ## Unrecognised instruction words -/

/-- Every pixel of the 64 x 32 display is `false` after `clear_display`. -/
theorem clear_display_pixel (s : State) (px py : Nat) (hx : px < 64) (hy : py < 32) :
    (clear_display s).display px py = false := by
  have h1 : px < DISPLAY_WIDTH := hx
  have h2 : py < DISPLAY_HEIGHT := hy
  simp [clear_display, clear_rows, h1, h2]

/-- The words of group 0 are told apart by their low byte only. -/
theorem dispatch_group0 (rnd : Nat) (s : State) (h : s.opcode / 4096 % 16 = 0) :
    dispatch rnd s
      = if s.opcode % 256 = 0xE0 then .ok (clear_display s)
        else if s.opcode % 256 = 0xEE then
          (if s.sp > 0 then .ok { (pop_stack s).2 with pc := (pop_stack s).1 } else .ok s)
        else .ok s := by
  unfold dispatch
  simp only [decode_group, decode_nn, h]
  simp
  rfl

/-- A word of group E is executed by `key_skip`. -/
theorem dispatch_key_skip (rnd : Nat) (s : State) (h : s.opcode / 4096 % 16 = 14) :
    dispatch rnd s = key_skip s.opcode (s.opcode / 256 % 16) s := by
  unfold dispatch
  simp only [decode_group, decode_x, h]
  simp

/-- The skips of groups 3, 4, 5 and 9 do not look at the low nibble. -/
theorem dispatch_skip (rnd : Nat) (s : State) (g : Nat) (h : s.opcode / 4096 % 16 = g)
    (hg : g = 3 ∨ g = 4 ∨ g = 5 ∨ g = 9) :
    dispatch rnd s
      = .ok (if (g = 3 ∧ s.V (s.opcode / 256 % 16) = s.opcode % 256) ∨
                (g = 4 ∧ s.V (s.opcode / 256 % 16) ≠ s.opcode % 256) ∨
                (g = 5 ∧ s.V (s.opcode / 256 % 16) = s.V (s.opcode / 16 % 16)) ∨
                (g = 9 ∧ s.V (s.opcode / 256 % 16) ≠ s.V (s.opcode / 16 % 16))
             then { s with pc := (s.pc + 2) % 65536 } else s) := by
  unfold dispatch
  simp only [decode_group, decode_x, decode_y, decode_nn, h]
  rcases hg with rfl | rfl | rfl | rfl <;> simp <;> rfl

/-- C13, as amended: a word that reaches a `default:` branch (group 0 with low
byte other than `E0`/`EE`, group 8 with low nibble outside `0..7`, `E`, group E
with low byte other than `9E`/`A1`, group F with an unlisted low byte), fetched
inside memory, only advances `pc` by 2 and is recorded in `opcode`; registers,
`I`, stack, timers, memory, display and keypad are unchanged. -/
theorem unrecognised_word_step (rnd : Nat) (s : State) (hi lo : Nat)
    (hpc : s.pc + 2 < MEMORY_SIZE) (hhi : s.memory s.pc = hi)
    (hlo : s.memory (s.pc + 1) = lo) (hi_lt : hi < 256) (lo_lt : lo < 256)
    (hw : reaches_default (256 * hi + lo)) :
    start_emulator rnd s = .ok { s with pc := s.pc + 2, opcode := 256 * hi + lo } := by
  rw [start_emulator_fetch rnd s hi lo hpc hhi hlo hi_lt lo_lt]
  rcases hw with ⟨hg, h1, h2⟩ | ⟨hg, h1, h2⟩ | ⟨hg, h1, h2⟩ |
    ⟨hg, h1, h2, h3, h4, h5, h6, h7, h8, h9⟩
  · rw [dispatch_group0 _ _ hg]
    simp only [h1, h2, if_false]
  · rw [dispatch_alu _ _ hg]
    have n0 : ¬ (256 * hi + lo) % 16 = 0 := by omega
    have n1 : ¬ (256 * hi + lo) % 16 = 1 := by omega
    have n2 : ¬ (256 * hi + lo) % 16 = 2 := by omega
    have n3 : ¬ (256 * hi + lo) % 16 = 3 := by omega
    have n4 : ¬ (256 * hi + lo) % 16 = 4 := by omega
    have n5 : ¬ (256 * hi + lo) % 16 = 5 := by omega
    have n6 : ¬ (256 * hi + lo) % 16 = 6 := by omega
    have n7 : ¬ (256 * hi + lo) % 16 = 7 := by omega
    simp only [alu, decode_n, n0, n1, n2, n3, n4, n5, n6, n7, h2, if_false]
  · rw [dispatch_key_skip _ _ hg]
    simp only [key_skip, decode_nn, h1, h2, if_false]
    rfl
  · rw [dispatch_misc _ _ hg]
    simp only [misc, decode_nn, h1, h2, h3, h4, h5, h6, h7, h8, h9, if_false]
    rfl

/-- An instance of C13 as amended: the word `8AB9` leaves `VA = 7`, `VB = 200`
and moves `pc` to `0x202`. -/
theorem unrecognised_word_step_scenario :
    ∃ s', start_emulator 0 unknown_alu_scenario = .ok s' ∧ s'.pc = 0x202 ∧
      s'.V 0xA = 7 ∧ s'.V 0xB = 200 ∧ s'.V 0xF = 0 :=
  ⟨_, unrecognised_word_step 0 unknown_alu_scenario 0x8A 0xB9 (by decide) (by decide)
    (by decide) (by decide) (by decide) (Or.inr (Or.inl (by decide))),
    by decide, by decide, by decide, by decide⟩

/-- C13 fails as stated on words the claim lists as undefined: `01E0` clears the
display, `01EE` pops the stack into `pc`, `5011` skips when `V0 = V1` and `9011`
skips when `V0` differs from `V1`. -/
theorem undefined_words_executed :
    (∃ s', start_emulator 0 unknown_clear_scenario = .ok s' ∧
      unknown_clear_scenario.display 3 3 = true ∧ s'.display 3 3 = false) ∧
    (∃ s', start_emulator 0 unknown_return_scenario = .ok s' ∧
      unknown_return_scenario.sp = 1 ∧ s'.sp = 0 ∧ s'.pc = 0x345) ∧
    (∃ s', start_emulator 0 unknown_skip_eq_scenario = .ok s' ∧
      unknown_skip_eq_scenario.pc = 0x200 ∧ s'.pc = 0x204) ∧
    (∃ s', start_emulator 0 unknown_skip_ne_scenario = .ok s' ∧
      unknown_skip_ne_scenario.pc = 0x200 ∧ s'.pc = 0x204) := by
  have h1 : start_emulator 0 unknown_clear_scenario
      = .ok (clear_display { unknown_clear_scenario with
          pc := unknown_clear_scenario.pc + 2, opcode := 256 * 0x01 + 0xE0 }) := by
    rw [start_emulator_fetch 0 unknown_clear_scenario 0x01 0xE0 (by decide) (by decide)
      (by decide) (by decide) (by decide), dispatch_group0 _ _ (by decide)]
    rfl
  refine ⟨⟨_, h1, by decide, ?_⟩, ⟨_, rfl, by decide, by decide, by decide⟩,
    ⟨_, rfl, by decide, by decide⟩, ⟨_, rfl, by decide, by decide⟩⟩
  exact clear_display_pixel _ 3 3 (by decide) (by decide)

/-! ## Array indices -/

/-- C18, at `I = 0xFFF` (`0xFFE` for the decimal store): the draw `D002`, the
decimal store `F033`, the dump `F155` and the load `F165` each index `memory`
at 4096, outside the array. -/
theorem index_register_leaves_memory :
    start_emulator 0 draw_past_end_scenario = .error (.memory_index 4096) ∧
    start_emulator 0 bcd_past_end_scenario = .error (.memory_index 4096) ∧
    start_emulator 0 dump_past_end_scenario = .error (.memory_index 4096) ∧
    start_emulator 0 load_past_end_scenario = .error (.memory_index 4096) :=
  ⟨rfl, rfl, rfl, rfl⟩

/-- C19, at `V0 = 16` and `V0 = 0xFF`: the skips `E09E` and `E0A1` index `keypad`
at `V0`, outside the 16-entry array. -/
theorem key_index_leaves_keypad :
    start_emulator 0 key_pressed_past_end_scenario = .error (.keypad_index 16) ∧
    start_emulator 0 key_released_past_end_scenario = .error (.keypad_index 255) :=
  ⟨rfl, rfl⟩

/-! ## The flag register as an operand -/

/-- C16, with `VF` as the operand `Vy` or `Vx`: the flag is written first and the
operand read afterwards.  `80F4` with `V0 = 1`, `VF = 5` ends with `V0 = 1`, not
6; `80F5` with `V0 = 9`, `VF = 5` ends with `V0 = 8`, not 4; `80F7` with `V0 = 1`,
`VF = 5` ends with `V0 = 0`, not 4; `DF01` with `VF = 8`, `V0 = 0` sets the pixel
`(0, 0)`, not `(8, 0)`. -/
theorem flag_written_before_operands_read :
    (∃ s', start_emulator 0 add_flag_operand_scenario = .ok s' ∧
      add_flag_operand_scenario.V 0 + add_flag_operand_scenario.V 0xF = 6 ∧ s'.V 0 = 1) ∧
    (∃ s', start_emulator 0 sub_flag_operand_scenario = .ok s' ∧
      sub_flag_operand_scenario.V 0 - sub_flag_operand_scenario.V 0xF = 4 ∧ s'.V 0 = 8) ∧
    (∃ s', start_emulator 0 rsub_flag_operand_scenario = .ok s' ∧
      rsub_flag_operand_scenario.V 0xF - rsub_flag_operand_scenario.V 0 = 4 ∧ s'.V 0 = 0) ∧
    (∃ s', start_emulator 0 draw_flag_operand_scenario = .ok s' ∧
      draw_flag_operand_scenario.V 0xF = 8 ∧ draw_flag_operand_scenario.V 0 = 0 ∧
      s'.display 8 0 = false ∧ s'.display 0 0 = true) :=
  ⟨⟨_, rfl, by decide, by decide⟩, ⟨_, rfl, by decide, by decide⟩,
    ⟨_, rfl, by decide, by decide⟩, ⟨_, rfl, by decide, by decide, by decide, by decide⟩⟩

/-! ## Drawing twice -/

/-- Distinct cells of a sprite of at most 32 rows land on distinct pixels. -/
theorem sprite_cells_injective (vx vy row col row2 col2 : Nat)
    (hr : row < 32) (hc : col < 8) (hr2 : row2 < 32) (hc2 : col2 < 8)
    (hx : (vx + col) % 64 = (vx + col2) % 64) (hy : (vy + row) % 32 = (vy + row2) % 32) :
    row = row2 ∧ col = col2 := by
  constructor <;> omega

/-- C20: the draw `Dxyn` with `x`, `y` different from `0xF`, `n` in 0..15 and
`I + n <= 4096` returns a state `s1` with memory, `I`, `Vx`, `Vy` unchanged;
the same instruction fetched again from any state with that memory, `I`, `Vx`,
`Vy` and the display of `s1` returns a state whose display is the one before the
first draw; and within one draw distinct sprite cells `(row, col)` address
distinct pixels, so no pixel is inverted twice. -/
theorem draw_twice_restores_display (rnd1 rnd2 : Nat) (s : State) (x y n : Nat)
    (hx : x < 15) (hy : y < 15) (hn : n < 16) (hI : s.I + n ≤ 4096)
    (hpc : s.pc + 2 < MEMORY_SIZE)
    (hhi : s.memory s.pc = 0xD0 + x) (hlo : s.memory (s.pc + 1) = 16 * y + n) :
    ∃ s1, start_emulator rnd1 s = .ok s1 ∧
      s1.memory = s.memory ∧ s1.I = s.I ∧ s1.V x = s.V x ∧ s1.V y = s.V y ∧
      s1.pc = s.pc + 2 ∧
      (∀ s2 : State, s2.memory = s.memory → s2.I = s.I → s2.V x = s.V x → s2.V y = s.V y →
        s2.display = s1.display → s2.pc + 2 < MEMORY_SIZE →
        s2.memory s2.pc = 0xD0 + x → s2.memory (s2.pc + 1) = 16 * y + n →
        ∃ s3, start_emulator rnd2 s2 = .ok s3 ∧ s3.display = s.display) ∧
      (∀ row col row2 col2, row < n → col < 8 → row2 < n → col2 < 8 →
        (s.V x + col) % 64 = (s.V x + col2) % 64 →
        (s.V y + row) % 32 = (s.V y + row2) % 32 → row = row2 ∧ col = col2) := by
  obtain ⟨s1, h1, T1⟩ := draw_step_toggled rnd1 s x y n hx hy hn hI hpc hhi hlo
  have hxF : x ≠ 0xF := by omega
  have hyF : y ≠ 0xF := by omega
  refine ⟨s1, h1, T1.memory_eq, T1.I_eq, ?_, ?_, T1.pc_eq, ?_, ?_⟩
  · rw [T1.regs x hxF]
    simp [store, hxF]
  · rw [T1.regs y hyF]
    simp [store, hyF]
  · intro s2 hm hi2 hvx hvy hd hpc2 hhi2 hlo2
    have hI2 : s2.I + n ≤ 4096 := by rw [hi2]; exact hI
    obtain ⟨s3, h3, T3⟩ := draw_step_toggled rnd2 s2 x y n hx hy hn hI2 hpc2 hhi2 hlo2
    refine ⟨s3, h3, ?_⟩
    rw [hm, hi2, hvx, hvy] at T3
    funext px py
    by_cases hT : sprite_pixels s.memory s.I (s.V x) (s.V y) n px py
    · have a := T3.inverted px py hT
      have b := T1.inverted px py hT
      simp only [] at a b
      rw [a, hd, b, Bool.not_not]
    · have a := T3.kept px py hT
      have b := T1.kept px py hT
      simp only [] at a b
      rw [a, hd, b]
  · intro row col row2 col2 hr hc hr2 hc2 e1 e2
    exact sprite_cells_injective (s.V x) (s.V y) row col row2 col2 (by omega) hc (by omega)
      hc2 e1 e2

/-- An instance of C20: `D012` at `0x200` and again at `0x202`, drawn across both
edges over a display with the diagonal set, ends with the display it started
from. -/
theorem draw_twice_restores_display_scenario :
    ∃ s1 s3, start_emulator 0 draw_twice_scenario = .ok s1 ∧
      start_emulator 0 s1 = .ok s3 ∧ s3.display = draw_twice_scenario.display := by
  obtain ⟨s1, h1, hm, hi, hvx, hvy, hp, h, -⟩ :=
    draw_twice_restores_display 0 0 draw_twice_scenario 0 1 2 (by decide) (by decide)
      (by decide) (by decide) (by decide) (by decide) (by decide)
  have pc1 : s1.pc = 0x202 := hp
  obtain ⟨s3, h3, hd⟩ := h s1 hm hi hvx hvy rfl (by rw [pc1]; decide)
    (by rw [pc1, hm]; decide) (by rw [pc1, hm]; decide)
  exact ⟨s1, s3, h1, h3, hd⟩

/-! ## The glyph scenario -/

/-- A word of group 6 loads the immediate byte into `Vx`. -/
theorem dispatch_load_immediate (rnd : Nat) (s : State) (h : s.opcode / 4096 % 16 = 6) :
    dispatch rnd s
      = .ok { s with V := store s.V (s.opcode / 256 % 16) (s.opcode % 256) } := by
  unfold dispatch
  simp only [decode_group, decode_x, decode_nn, h]
  simp
  rfl

/-- A word of group A sets `I` to the immediate address. -/
theorem dispatch_set_index (rnd : Nat) (s : State) (h : s.opcode / 4096 % 16 = 10) :
    dispatch rnd s = .ok { s with I := s.opcode % 4096 } := by
  unfold dispatch
  simp only [decode_group, decode_nnn, h]
  simp
  rfl

/-- The four steps of the program `00E0 600A A000 D005` on a blank display with
the sprite rows at addresses 0..4 inside memory: the run returns a state whose
set pixels are those of the five-row sprite at address 0 drawn at `(10, 10)`,
with `VF = 0`. -/
theorem glyph_program_run (rnd : Nat → Nat) (s : State)
    (hd : ∀ px py, s.display px py = false) (hpc : s.pc + 8 < 4096)
    (p0 : s.memory s.pc = 0x00) (p1 : s.memory (s.pc + 1) = 0xE0)
    (p2 : s.memory (s.pc + 2) = 0x60) (p3 : s.memory (s.pc + 3) = 0x0A)
    (p4 : s.memory (s.pc + 4) = 0xA0) (p5 : s.memory (s.pc + 5) = 0x00)
    (p6 : s.memory (s.pc + 6) = 0xD0) (p7 : s.memory (s.pc + 7) = 0x05) :
    ∃ s4, run rnd 4 s = .ok s4 ∧
      (∀ px py, s4.display px py = true ↔ sprite_pixels s.memory 0 10 10 5 px py) ∧
      s4.V 0xF = 0 := by
  have e1 : start_emulator (rnd 3) s
      = .ok (clear_display { s with pc := s.pc + 2, opcode := 256 * 0x00 + 0xE0 }) := by
    rw [start_emulator_fetch _ s _ _ (by simp only [MEMORY_SIZE]; omega) p0 p1
      (by omega) (by omega), dispatch_clear _ _ rfl]
  obtain ⟨s1, hs1⟩ :
      ∃ s1, s1 = clear_display { s with pc := s.pc + 2, opcode := 256 * 0x00 + 0xE0 } :=
    ⟨_, rfl⟩
  have c1 : s1 = { s with pc := s.pc + 2, opcode := 256 * 0x00 + 0xE0,
                          display := fun i j =>
                            if i < DISPLAY_WIDTH ∧ j < DISPLAY_HEIGHT then false
                            else s.display i j } := by
    rw [hs1, clear_display, clear_rows]
  have d1 : ∀ px py, s1.display px py = false := by
    intro px py
    rw [c1]
    simp only []
    split
    · rfl
    · exact hd px py
  have m1 : s1.memory = s.memory := by rw [c1]
  have pc1 : s1.pc = s.pc + 2 := by rw [c1]
  rw [← hs1] at e1
  have e2 : start_emulator (rnd 2) s1
      = .ok { s1 with pc := s1.pc + 2, opcode := 256 * 0x60 + 0x0A,
                      V := store s1.V 0 0x0A } := by
    rw [start_emulator_fetch _ s1 0x60 0x0A (by rw [pc1]; simp only [MEMORY_SIZE]; omega)
      (by rw [pc1, m1]; exact p2) (by rw [pc1, m1]; exact p3) (by omega) (by omega),
      dispatch_load_immediate _ _ (by simp only [])]
    simp only []
  have e3 : start_emulator (rnd 1)
        { s1 with pc := s1.pc + 2, opcode := 256 * 0x60 + 0x0A, V := store s1.V 0 0x0A }
      = .ok { s1 with pc := s1.pc + 2 + 2, opcode := 256 * 0xA0 + 0x00,
                      V := store s1.V 0 0x0A, I := 0 } := by
    rw [start_emulator_fetch _ _ 0xA0 0x00
      (by simp only [pc1, MEMORY_SIZE]; omega)
      (by simp only [pc1, m1]; exact p4) (by simp only [pc1, m1]; exact p5)
      (by omega) (by omega),
      dispatch_set_index _ _ (by simp only [])]
    simp only []
  obtain ⟨s4, e4, T⟩ := draw_step_toggled (rnd 0)
    { s1 with pc := s1.pc + 2 + 2, opcode := 256 * 0xA0 + 0x00,
              V := store s1.V 0 0x0A, I := 0 } 0 0 5 (by omega) (by omega) (by omega)
    (by simp only [MEMORY_SIZE]; omega)
    (by simp only [pc1, MEMORY_SIZE]; omega)
    (by simp only [pc1, m1]; exact p6) (by simp only [pc1, m1]; exact p7)
  refine ⟨s4, ?_, ?_, ?_⟩
  · simp only [run, bind, Except.bind, e1, e2, e3, e4]
  · intro px py
    have v0 : store s1.V 0 0x0A 0 = 10 := by simp [store]
    simp only [m1, v0] at T
    by_cases hT : sprite_pixels s.memory 0 10 10 5 px py
    · have a := T.inverted px py hT
      simp only [d1, Bool.not_false] at a
      simp [a, hT]
    · have a := T.kept px py hT
      simp only [d1] at a
      simp [a, hT]
  · have a := T.miss (by
      rintro ⟨px, py, -, h⟩
      simp only [d1] at h
      exact absurd h (by decide))
    simpa [store] using a

/-- C12, as amended: from a state with a blank display, the bytes
`F0 90 90 90 F0` at addresses 0..4 and the program `00 E0 60 0A A0 00 D0 05` at
the program counter, four engine steps return a state whose set pixels are
exactly those of the digit-0 glyph with its top-left corner at `(10, 10)`: the
second instruction sets `V0 = 0x0A` and the draw `D005` takes both coordinates
from `V0`.  `VF` is 0. -/
theorem glyph_drawn_at_ten_ten (rnd : Nat → Nat) (s : State)
    (hd : ∀ px py, s.display px py = false)
    (hg : ∀ r, r < 5 → s.memory r = digit0_glyph.getD r 0) (hpc : s.pc + 8 < 4096)
    (p0 : s.memory s.pc = 0x00) (p1 : s.memory (s.pc + 1) = 0xE0)
    (p2 : s.memory (s.pc + 2) = 0x60) (p3 : s.memory (s.pc + 3) = 0x0A)
    (p4 : s.memory (s.pc + 4) = 0xA0) (p5 : s.memory (s.pc + 5) = 0x00)
    (p6 : s.memory (s.pc + 6) = 0xD0) (p7 : s.memory (s.pc + 7) = 0x05) :
    ∃ s4, run rnd 4 s = .ok s4 ∧
      (∀ px py, s4.display px py = true ↔ glyph_at digit0_glyph 10 10 px py) ∧
      s4.V 0xF = 0 := by
  obtain ⟨s4, h4, hpix, hf⟩ := glyph_program_run rnd s hd hpc p0 p1 p2 p3 p4 p5 p6 p7
  refine ⟨s4, h4, ?_, hf⟩
  intro px py
  rw [hpix px py]
  have len : digit0_glyph.length = 5 := rfl
  constructor
  · rintro ⟨row, col, hr, hc, hb, h1, h2⟩
    rw [Nat.zero_add, hg row hr] at hb
    exact ⟨row, col, by rw [len]; exact hr, hc, hb, by omega, by omega⟩
  · rintro ⟨row, col, hr, hc, hb, h1, h2⟩
    rw [len] at hr
    refine ⟨row, col, hr, hc, ?_, by omega, by omega⟩
    rw [Nat.zero_add, hg row hr]
    exact hb

/-- An instance of C12 as amended: on the glyph scenario at `pc = 0x200` the
corner `(10, 10)` and the bottom-right pixel `(13, 14)` are set, the hollow
`(11, 11)` is clear, and `VF = 0`. -/
theorem glyph_drawn_at_ten_ten_scenario :
    ∃ s4, run (fun _ => 0) 4 glyph_scenario = .ok s4 ∧ s4.display 10 10 = true ∧
      s4.display 13 14 = true ∧ s4.display 11 11 = false ∧ s4.V 0xF = 0 := by
  obtain ⟨s4, h4, hpix, hf⟩ :=
    glyph_drawn_at_ten_ten (fun _ => 0) glyph_scenario (fun _ _ => rfl)
      (by intro r hr; interval_cases r <;> rfl) (by decide) (by decide) (by decide)
      (by decide) (by decide) (by decide) (by decide) (by decide) (by decide)
  refine ⟨s4, h4, ?_, ?_, ?_, hf⟩
  · exact (hpix 10 10).mpr ⟨0, 0, by decide, by decide, by decide, rfl, rfl⟩
  · exact (hpix 13 14).mpr ⟨4, 3, by decide, by decide, by decide, rfl, rfl⟩
  · cases h : s4.display 11 11
    · rfl
    · obtain ⟨row, col, hr, hc, hb, h1, h2⟩ := (hpix 11 11).mp h
      have er : row = 1 := by omega
      have ec : col = 1 := by omega
      subst er ec
      exact absurd hb (by decide)

/-- C12 fails as stated: the glyph with its top-left corner at `(0, 0)` contains
the pixel `(0, 0)`, but after the four steps of the glyph scenario that pixel is
clear (and `(10, 10)`, outside that glyph, is set). -/
theorem glyph_not_drawn_at_origin :
    ∃ s4, run (fun _ => 0) 4 glyph_scenario = .ok s4 ∧
      glyph_at digit0_glyph 0 0 0 0 ∧ s4.display 0 0 = false ∧
      ¬ glyph_at digit0_glyph 0 0 10 10 ∧ s4.display 10 10 = true := by
  obtain ⟨s4, h4, hpix, -⟩ :=
    glyph_program_run (fun _ => 0) glyph_scenario (fun _ _ => rfl) (by decide) (by decide)
      (by decide) (by decide) (by decide) (by decide) (by decide) (by decide) (by decide)
  refine ⟨s4, h4, ⟨0, 0, by decide, by decide, by decide, rfl, rfl⟩, ?_, ?_, ?_⟩
  · cases h : s4.display 0 0
    · rfl
    · obtain ⟨row, col, hr, hc, hb, h1, h2⟩ := (hpix 0 0).mp h
      omega
  · rintro ⟨row, col, hr, hc, hb, h1, h2⟩
    have len : digit0_glyph.length = 5 := rfl
    rw [len] at hr
    omega
  · exact (hpix 10 10).mpr ⟨0, 0, by decide, by decide, by decide, rfl, rfl⟩

/-! ## The program counter -/

/-- A word of group 1 sets `pc` to the immediate address. -/
theorem dispatch_jump (rnd : Nat) (s : State) (h : s.opcode / 4096 % 16 = 1) :
    dispatch rnd s = .ok { s with pc := s.opcode % 4096 } := by
  unfold dispatch
  simp only [decode_group, decode_nnn, h]
  simp
  rfl

/-- A word of group 7 adds the immediate byte to `Vx`. -/
theorem dispatch_add_immediate (rnd : Nat) (s : State) (h : s.opcode / 4096 % 16 = 7) :
    dispatch rnd s
      = .ok { s with
                V := store s.V (s.opcode / 256 % 16)
                       ((s.V (s.opcode / 256 % 16) + s.opcode % 256) % 256) } := by
  unfold dispatch
  simp only [decode_group, decode_x, decode_nn, h]
  simp
  rfl

/-- A word of group B sets `pc` to the immediate address plus `V0`. -/
theorem dispatch_offset_jump (rnd : Nat) (s : State) (h : s.opcode / 4096 % 16 = 11) :
    dispatch rnd s = .ok { s with pc := (s.opcode % 4096 + s.V 0) % 65536 } := by
  unfold dispatch
  simp only [decode_group, decode_nnn, h]
  simp
  rfl

/-- A word of group C stores a masked random byte in `Vx`. -/
theorem dispatch_random (rnd : Nat) (s : State) (h : s.opcode / 4096 % 16 = 12) :
    dispatch rnd s
      = .ok { s with
                V := store s.V (s.opcode / 256 % 16) ((rnd % 256) &&& (s.opcode % 256)) } := by
  unfold dispatch
  simp only [decode_group, decode_x, decode_nn, h]
  simp
  rfl

/-- The register-register group never touches `pc`. -/
theorem alu_pc (opcode x y : Nat) (s : State) : (alu opcode x y s).pc = s.pc := by
  unfold alu
  simp only [apply_ite State.pc, ite_self]

/-- A `for` loop whose body keeps `pc` keeps `pc`. -/
theorem foldl_pc (f : State → Nat → State) (hf : ∀ s i, (f s i).pc = s.pc)
    (l : List Nat) (s : State) : (l.foldl f s).pc = s.pc := by
  induction l generalizing s with
  | nil => rfl
  | cons a l ih => rw [List.foldl_cons, ih, hf]

/-- A `for` loop with array accesses whose body keeps `pc` keeps `pc` when it
runs to the end. -/
theorem foldlM_pc (f : State → Nat → Except Fault State)
    (hf : ∀ s i t, f s i = .ok t → t.pc = s.pc)
    (l : List Nat) (s t : State) (h : l.foldlM f s = .ok t) : t.pc = s.pc := by
  induction l generalizing s with
  | nil =>
    simp only [List.foldlM_nil, pure, Except.pure, Except.ok.injEq] at h
    rw [h]
  | cons a l ih =>
    rw [List.foldlM_cons] at h
    cases hfa : f s a with
    | error e =>
      rw [hfa] at h
      simp [bind, Except.bind] at h
    | ok u =>
      rw [hfa] at h
      simp only [bind, Except.bind] at h
      rw [ih u h, hf s a u hfa]

/-- The draw instruction never touches `pc`. -/
theorem draw_sprite_pc (x y n : Nat) (s t : State) (h : draw_sprite x y n s = .ok t) :
    t.pc = s.pc := by
  unfold draw_sprite at h
  refine foldlM_pc (draw_row x y) ?_ _ { s with V := store s.V 0xF 0 } t h
  intro u row v hv
  unfold draw_row read_memory at hv
  by_cases hin : u.I + row < MEMORY_SIZE
  · simp only [hin, if_true, bind, Except.bind, pure, Except.pure, Except.ok.injEq] at hv
    rw [← hv]
    exact foldl_pc _ (fun a col => (draw_pixel_toggled x y row _ col a).pc_eq) _ u
  · simp [hin, bind, Except.bind] at hv

/-- The keypad skips leave `pc`, or advance it by 2 when their condition on
`keypad[Vx]` holds. -/
theorem key_skip_pc (opcode x : Nat) (s t : State) (h : key_skip opcode x s = .ok t) :
    t.pc = s.pc ∨
    (t.pc = (s.pc + 2) % 65536 ∧
      ((opcode % 256 = 0x9E ∧ s.keypad (s.V x) ≠ 0) ∨
       (opcode % 256 = 0xA1 ∧ s.keypad (s.V x) = 0))) := by
  unfold key_skip read_keypad at h
  simp only [decode_nn] at h
  by_cases hk : s.V x < NUM_KEYS
  · simp only [hk, if_true, bind, Except.bind, pure, Except.pure] at h
    split_ifs at h with h1 h2 h3 h4 <;> simp only [Except.ok.injEq] at h <;> rw [← h]
    · exact Or.inr ⟨rfl, Or.inl ⟨h1, h2⟩⟩
    · exact Or.inl rfl
    · exact Or.inr ⟨rfl, Or.inr ⟨h3, h4⟩⟩
    · exact Or.inl rfl
    · exact Or.inl rfl
  · simp only [hk, if_false, bind, Except.bind, pure, Except.pure] at h
    split_ifs at h
    simp only [Except.ok.injEq] at h
    rw [← h]
    exact Or.inl rfl

/-- The instructions of group F leave `pc`, except the key wait, which rewinds it
by 2 when no key is down. -/
theorem misc_pc (opcode x : Nat) (s t : State) (h : misc opcode x s = .ok t) :
    t.pc = s.pc ∨ t.pc = to_u16 ((s.pc : Int) - 2) := by
  unfold misc at h
  simp only [] at h
  split_ifs at h
  · simp only [pure, Except.pure, Except.ok.injEq] at h
    rw [← h]; exact Or.inl rfl
  · cases hk : key_scan s.keypad 0 NUM_KEYS with
    | none =>
      rw [hk] at h
      simp only [pure, Except.pure, Except.ok.injEq] at h
      rw [← h]; exact Or.inr rfl
    | some i =>
      rw [hk] at h
      simp only [pure, Except.pure, Except.ok.injEq] at h
      rw [← h]; exact Or.inl rfl
  · simp only [pure, Except.pure, Except.ok.injEq] at h
    rw [← h]; exact Or.inl rfl
  · simp only [pure, Except.pure, Except.ok.injEq] at h
    rw [← h]; exact Or.inl rfl
  · simp only [pure, Except.pure, Except.ok.injEq] at h
    rw [← h]; exact Or.inl rfl
  · simp only [pure, Except.pure, Except.ok.injEq] at h
    rw [← h]; exact Or.inl rfl
  · left
    unfold write_memory at h
    by_cases h0 : s.I < MEMORY_SIZE
    · by_cases h1 : s.I + 1 < MEMORY_SIZE
      · by_cases h2 : s.I + 2 < MEMORY_SIZE
        · simp only [h0, h1, h2, if_true, bind, Except.bind, Except.ok.injEq] at h
          rw [← h]
        · simp [h0, h1, h2, bind, Except.bind] at h
      · simp [h0, h1, bind, Except.bind] at h
    · simp [h0, bind, Except.bind] at h
  · left
    unfold dump_registers at h
    refine foldlM_pc _ ?_ _ _ t h
    intro u i v hv
    unfold write_memory at hv
    split_ifs at hv
    simp only [Except.ok.injEq] at hv
    rw [← hv]
  · left
    unfold load_registers at h
    refine foldlM_pc _ ?_ _ _ t h
    intro u i v hv
    unfold read_memory at hv
    by_cases hin : u.I + i < MEMORY_SIZE
    · simp only [hin, if_true, bind, Except.bind, pure, Except.pure, Except.ok.injEq] at hv
      rw [← hv]
    · simp [hin, bind, Except.bind] at hv
  · simp only [pure, Except.pure, Except.ok.injEq] at h
    rw [← h]; exact Or.inl rfl

/-- The function `clear_display` never touches `pc`. -/
theorem clear_display_pc (s : State) : (clear_display s).pc = s.pc := by
  rw [clear_display, clear_rows]

/-- The program counter after `dispatch`, for every word: unchanged, advanced by
2 by a skip that is taken, rewound by 2, or one of the control-flow targets. -/
theorem dispatch_pc (rnd : Nat) (s t : State) (h : dispatch rnd s = .ok t) :
    t.pc = s.pc ∨ (skip_taken s s.opcode ∧ t.pc = (s.pc + 2) % 65536) ∨
    t.pc = to_u16 ((s.pc : Int) - 2) ∨
    (s.opcode / 4096 % 16 = 1 ∧ t.pc = s.opcode % 4096) ∨
    (s.opcode / 4096 % 16 = 2 ∧ s.sp < STACK_SIZE ∧ t.pc = s.opcode % 4096) ∨
    (s.opcode / 4096 % 16 = 11 ∧ t.pc = (s.opcode % 4096 + s.V 0) % 65536) ∨
    (s.opcode / 4096 % 16 = 0 ∧ s.opcode % 256 = 0xEE ∧ 0 < s.sp ∧
      t.pc = s.stack (s.sp - 1)) := by
  have hlt : s.opcode / 4096 % 16 < 16 := Nat.mod_lt _ (by decide)
  obtain ⟨g, hg⟩ : ∃ g, s.opcode / 4096 % 16 = g := ⟨_, rfl⟩
  rw [hg] at hlt
  interval_cases g
  · rw [dispatch_group0 _ _ hg] at h
    split_ifs at h with h1 h2 h3 <;> simp only [Except.ok.injEq] at h <;> rw [← h]
    · exact Or.inl (clear_display_pc s)
    · exact Or.inr (Or.inr (Or.inr (Or.inr (Or.inr (Or.inr ⟨hg, h2, h3, rfl⟩)))))
    · exact Or.inl rfl
    · exact Or.inl rfl
  · rw [dispatch_jump _ _ hg] at h
    simp only [Except.ok.injEq] at h
    rw [← h]
    exact Or.inr (Or.inr (Or.inr (Or.inl ⟨hg, rfl⟩)))
  · rw [dispatch_call _ _ hg] at h
    split_ifs at h with hsp <;> simp only [Except.ok.injEq] at h <;> rw [← h]
    · exact Or.inr (Or.inr (Or.inr (Or.inr (Or.inl ⟨hg, hsp, rfl⟩))))
    · exact Or.inl rfl
  · rw [dispatch_skip _ _ 3 hg (by decide)] at h
    simp only [Except.ok.injEq] at h
    rw [← h]
    split_ifs with hc
    · refine Or.inr (Or.inl ⟨?_, rfl⟩)
      rcases hc with ⟨e0, e⟩ | ⟨e0, e⟩ | ⟨e0, e⟩ | ⟨e0, e⟩ <;>
        first
        | exact absurd e0 (by decide)
        | exact Or.inl ⟨hg, e⟩
    · exact Or.inl rfl
  · rw [dispatch_skip _ _ 4 hg (by decide)] at h
    simp only [Except.ok.injEq] at h
    rw [← h]
    split_ifs with hc
    · refine Or.inr (Or.inl ⟨?_, rfl⟩)
      rcases hc with ⟨e0, e⟩ | ⟨e0, e⟩ | ⟨e0, e⟩ | ⟨e0, e⟩ <;>
        first
        | exact absurd e0 (by decide)
        | exact Or.inr (Or.inl ⟨hg, e⟩)
    · exact Or.inl rfl
  · rw [dispatch_skip _ _ 5 hg (by decide)] at h
    simp only [Except.ok.injEq] at h
    rw [← h]
    split_ifs with hc
    · refine Or.inr (Or.inl ⟨?_, rfl⟩)
      rcases hc with ⟨e0, e⟩ | ⟨e0, e⟩ | ⟨e0, e⟩ | ⟨e0, e⟩ <;>
        first
        | exact absurd e0 (by decide)
        | exact Or.inr (Or.inr (Or.inl ⟨hg, e⟩))
    · exact Or.inl rfl
  · rw [dispatch_load_immediate _ _ hg] at h
    simp only [Except.ok.injEq] at h
    rw [← h]
    exact Or.inl rfl
  · rw [dispatch_add_immediate _ _ hg] at h
    simp only [Except.ok.injEq] at h
    rw [← h]
    exact Or.inl rfl
  · rw [dispatch_alu _ _ hg] at h
    simp only [Except.ok.injEq] at h
    rw [← h]
    exact Or.inl (alu_pc _ _ _ s)
  · rw [dispatch_skip _ _ 9 hg (by decide)] at h
    simp only [Except.ok.injEq] at h
    rw [← h]
    split_ifs with hc
    · refine Or.inr (Or.inl ⟨?_, rfl⟩)
      rcases hc with ⟨e0, e⟩ | ⟨e0, e⟩ | ⟨e0, e⟩ | ⟨e0, e⟩ <;>
        first
        | exact absurd e0 (by decide)
        | exact Or.inr (Or.inr (Or.inr (Or.inl ⟨hg, e⟩)))
    · exact Or.inl rfl
  · rw [dispatch_set_index _ _ hg] at h
    simp only [Except.ok.injEq] at h
    rw [← h]
    exact Or.inl rfl
  · rw [dispatch_offset_jump _ _ hg] at h
    simp only [Except.ok.injEq] at h
    rw [← h]
    exact Or.inr (Or.inr (Or.inr (Or.inr (Or.inr (Or.inl ⟨hg, rfl⟩)))))
  · rw [dispatch_random _ _ hg] at h
    simp only [Except.ok.injEq] at h
    rw [← h]
    exact Or.inl rfl
  · rw [dispatch_draw _ _ hg] at h
    exact Or.inl (draw_sprite_pc _ _ _ s t h)
  · rw [dispatch_key_skip _ _ hg] at h
    rcases key_skip_pc _ _ s t h with e | ⟨e, c | c⟩
    · exact Or.inl e
    · exact Or.inr (Or.inl ⟨Or.inr (Or.inr (Or.inr (Or.inr (Or.inl ⟨hg, c.1, c.2⟩)))), e⟩)
    · exact Or.inr (Or.inl ⟨Or.inr (Or.inr (Or.inr (Or.inr (Or.inr ⟨hg, c.1, c.2⟩)))), e⟩)
  · rw [dispatch_misc _ _ hg] at h
    rcases misc_pc _ _ s t h with e | e
    · exact Or.inl e
    · exact Or.inr (Or.inr (Or.inl e))

/-- A word of a group below D never leaves the arrays: `dispatch` returns. -/
theorem dispatch_returns (rnd : Nat) (s : State) (h : s.opcode / 4096 % 16 < 13) :
    ∃ t, dispatch rnd s = .ok t := by
  obtain ⟨g, hg⟩ : ∃ g, s.opcode / 4096 % 16 = g := ⟨_, rfl⟩
  rw [hg] at h
  interval_cases g
  · rw [dispatch_group0 _ _ hg]
    split_ifs <;> exact ⟨_, rfl⟩
  · exact ⟨_, dispatch_jump _ _ hg⟩
  · rw [dispatch_call _ _ hg]
    split_ifs <;> exact ⟨_, rfl⟩
  · exact ⟨_, dispatch_skip _ _ 3 hg (by decide)⟩
  · exact ⟨_, dispatch_skip _ _ 4 hg (by decide)⟩
  · exact ⟨_, dispatch_skip _ _ 5 hg (by decide)⟩
  · exact ⟨_, dispatch_load_immediate _ _ hg⟩
  · exact ⟨_, dispatch_add_immediate _ _ hg⟩
  · exact ⟨_, dispatch_alu _ _ hg⟩
  · exact ⟨_, dispatch_skip _ _ 9 hg (by decide)⟩
  · exact ⟨_, dispatch_set_index _ _ hg⟩
  · exact ⟨_, dispatch_offset_jump _ _ hg⟩
  · exact ⟨_, dispatch_random _ _ hg⟩

/-- C17, as amended: from a state with `pc` even and `PC + 2 < 4096` (the fetch
succeeds), with 8-bit instruction bytes, one engine step either returns a state
whose `pc` is even and below 4096, or it leaves an array, which only an
instruction of group D, E or F can do, provided that: a jump target is even, the
target of a call that is taken is even, an offset-jump target `nnn + V0` is even
and below 4096, the stack entry a return pops is even and below 4096, and a skip
that is taken has `PC + 4 < 4096`. -/
theorem pc_even_in_range_step (rnd : Nat) (s : State) (hi lo : Nat)
    (heven : s.pc % 2 = 0) (hpc : s.pc + 2 < 4096)
    (hhi : s.memory s.pc = hi) (hlo : s.memory (s.pc + 1) = lo)
    (hi_lt : hi < 256) (lo_lt : lo < 256)
    (ht : pc_target_ok s (256 * hi + lo)) :
    (∃ s', start_emulator rnd s = .ok s' ∧ s'.pc % 2 = 0 ∧ s'.pc < 4096) ∨
    (∃ e, start_emulator rnd s = .error e ∧ 13 ≤ (256 * hi + lo) / 4096 % 16) := by
  rw [start_emulator_fetch rnd s hi lo hpc hhi hlo hi_lt lo_lt]
  obtain ⟨t1, t2, t3, t4, t5⟩ := ht
  cases hres : dispatch rnd { s with pc := s.pc + 2, opcode := 256 * hi + lo } with
  | error e =>
    right
    refine ⟨e, rfl, ?_⟩
    by_contra hlt
    obtain ⟨t, ht'⟩ := dispatch_returns rnd
      { s with pc := s.pc + 2, opcode := 256 * hi + lo } (by simp only []; omega)
    rw [ht'] at hres
    exact absurd hres (by simp)
  | ok t =>
    left
    refine ⟨t, rfl, ?_⟩
    have hp := dispatch_pc rnd _ t hres
    rcases hp with e | ⟨hs, e⟩ | e | ⟨hg, e⟩ | ⟨hg, hsp, e⟩ | ⟨hg, e⟩ | ⟨hg, hl, hsp, e⟩
    · rw [e]
      simp only []
      omega
    · have h4 : s.pc + 4 < 4096 := t5 hs
      rw [e]
      simp only []
      omega
    · rw [e]
      simp only [to_u16]
      omega
    · rw [e]
      have := t1 hg
      simp only [] at this ⊢
      omega
    · rw [e]
      have := t2 hg hsp
      simp only [] at this ⊢
      omega
    · rw [e]
      have := t3 hg
      simp only [] at this ⊢
      omega
    · rw [e]
      exact t4 hg hl hsp

/-- Two instances of C17 as amended: the load `6007` at `pc = 4092` returns with
`pc = 4094`, and the call `2201` to an odd address on a full stack, which is not
taken, returns with `pc = 0x202`; both even and below 4096. -/
theorem pc_even_in_range_step_scenario :
    (∃ s', start_emulator 0 load_at_end_scenario = .ok s' ∧ s'.pc % 2 = 0 ∧ s'.pc < 4096) ∧
    (∃ s', start_emulator 0 call_odd_full_stack_scenario = .ok s' ∧
      s'.pc % 2 = 0 ∧ s'.pc < 4096) := by
  constructor
  · rcases pc_even_in_range_step 0 load_at_end_scenario 0x60 0x07 (by decide) (by decide)
      (by decide) (by decide) (by decide) (by decide)
      (by unfold pc_target_ok skip_taken; decide) with h | ⟨e, -, h⟩
    · exact h
    · exact absurd h (by decide)
  · rcases pc_even_in_range_step 0 call_odd_full_stack_scenario 0x22 0x01 (by decide)
      (by decide) (by decide) (by decide) (by decide) (by decide)
      (by unfold pc_target_ok skip_taken; decide) with h | ⟨e, -, h⟩
    · exact h
    · exact absurd h (by decide)

/-- C17 fails as stated, from states with `pc` even and below 4096: the jump
`1201` and the call `2201` leave `pc = 0x201`, odd; the offset jump `BFFF` with
`V0 = 0xFF` leaves `pc = 0x10FE`, beyond memory; the return `00EE` to the stack
entry `0x345` leaves `pc` odd; the taken skips `3000` and `E0A1` at `pc = 4092`
and the fetch at `pc = 4094` leave `pc = 4096`. -/
theorem pc_leaves_even_range :
    (∃ s', start_emulator 0 jump_odd_scenario = .ok s' ∧
      jump_odd_scenario.pc = 0x200 ∧ s'.pc = 0x201) ∧
    (∃ s', start_emulator 0 call_odd_scenario = .ok s' ∧
      call_odd_scenario.pc = 0x200 ∧ s'.pc = 0x201) ∧
    (∃ s', start_emulator 0 offset_jump_scenario = .ok s' ∧
      offset_jump_scenario.pc = 0x200 ∧ s'.pc = 0x10FE) ∧
    (∃ s', start_emulator 0 return_odd_scenario = .ok s' ∧
      return_odd_scenario.pc = 0x200 ∧ s'.pc = 0x345) ∧
    (∃ s', start_emulator 0 skip_at_end_scenario = .ok s' ∧
      skip_at_end_scenario.pc = 4092 ∧ s'.pc = 4096) ∧
    (∃ s', start_emulator 0 key_skip_at_end_scenario = .ok s' ∧
      key_skip_at_end_scenario.pc = 4092 ∧ s'.pc = 4096) ∧
    (∃ s', start_emulator 0 fetch_edge = .ok s' ∧ fetch_edge.pc = 4094 ∧ s'.pc = 4096) :=
  ⟨⟨_, rfl, by decide, by decide⟩, ⟨_, rfl, by decide, by decide⟩,
    ⟨_, rfl, by decide, by decide⟩, ⟨_, rfl, by decide, by decide⟩,
    ⟨_, rfl, by decide, by decide⟩, ⟨_, rfl, by decide, by decide⟩,
    ⟨_, rfl, by decide, by decide⟩⟩

end Chip8
